import Mathlib

/-!
Verification of the st-CHATNOVEL chapterizer, parser and renderer.

Each definition is a shallow embedding of the corresponding JavaScript
function of the repository; the source file and function are named in the
doc comment.  JavaScript `Date` values are modelled as epoch milliseconds
(`Int`), strings as `String`/`List Char`, and exceptions as `Except`.
-/

namespace ChatNovel

/-! ## Data model

A parsed chat message, restricted to the fields the chapterizer and renderer
read (`src/unnamed/part_003`, `src/src/renderer.js`).  `parsedDate` models
`_parsedDate` as epoch milliseconds; `none` models an absent/undefined date. -/

structure MediaItem where
  url : String
  mtype : Option String
  mtitle : Option String
deriving Repr, DecidableEq

/-- The `message.extra` bag read by `renderExtraImages`
(`src/src/renderer.js` lines 439-475). -/
structure Extra where
  media : Option (List MediaItem)
  image : Option String
  image_swipes : Option (List String)
  media_index : Option Nat
  inline_image : Bool
  etitle : Option String
deriving Repr, DecidableEq

structure CMsg where
  name : String
  is_user : Bool
  is_system : Bool
  mes : String
  parsedDate : Option Int
  idx : Nat
  extra : Option Extra
deriving Repr, DecidableEq

/-- The value of `msg._parsedDate?.getTime() || 0` (and likewise
`msg._parsedDate || new Date(0)` measured in epoch ms): the parsed time, or
epoch zero when the date is absent. -/
def timeOf (m : CMsg) : Int := m.parsedDate.getD 0

/-- A chapter as built by `src/unnamed/part_003` (`startDate`/`endDate`
as epoch milliseconds). -/
structure Chapter where
  index : Nat
  title : String
  messages : List CMsg
  startDate : Int
  endDate : Int
deriving Repr, DecidableEq

/-- `ChapterizeOptions` after the `{ ...DEFAULT_OPTIONS, ...options }` merge
(`src/unnamed/part_003` line 35): every field present. -/
structure ChapterizeOptions where
  mode : String
  messagesPerChapter : Nat
  timeGapHours : Rat
deriving Repr, DecidableEq

/-! ## Chapterizer (`src/unnamed/part_003`) -/

/-- `chapterizeByCount` (part_003 lines 86-98): the loop
`for (let i = 0; i < messages.length; i += count)` pushing
`messages.slice(i, i + count)`.  The loop terminates only because the index
advances by `count ≥ 1` each iteration (claim C10); the embedding therefore
carries `0 < count`. -/
def chapterizeByCount : List CMsg → (count : Nat) → 0 < count → List Chapter
  | [], _, _ => []
  | m :: rest, count, hc =>
    { index := 0, title := "", messages := (m :: rest).take count,
      startDate := 0, endDate := 0 }
      :: chapterizeByCount ((m :: rest).drop count) count hc
termination_by msgs _ _ => msgs.length
decreasing_by simp [List.length_drop]; omega

/-- The index of the `chapterizeByCount` loop after `steps` iterations of
`i += count`, starting from `i = 0` (part_003 line 88). -/
def countLoopIndex (count : Nat) : Nat → Nat
  | 0 => 0
  | s + 1 => countLoopIndex count s + count

/-- `gapHours * 60 * 60 * 1000` (part_003 lines 107 and 153). -/
def timeGapMs (gapHours : Rat) : Rat := gapHours * 60 * 60 * 1000

/-- The time-gap test of part_003 line 122:
`(msg._parsedDate?.getTime() || 0) - (prevMsg._parsedDate?.getTime() || 0) > gapMs`,
guarded by `if (prevMsg)`. -/
def gapExceeded (gapMs : Rat) (prev : Option CMsg) (m : CMsg) : Bool :=
  match prev with
  | none => false
  | some p => decide (((timeOf m - timeOf p : Int) : Rat) > gapMs)

/-- The loop body of `chapterizeByTime` (part_003 lines 117-140): `prev` is
the previous message, `cur` the accumulating `currentChapter.messages`.  A
chapter is flushed when the gap is exceeded and the current chapter is
non-empty; the trailing non-empty chapter is flushed after the loop. -/
def timeGo (gapMs : Rat) (prev : Option CMsg) (cur : List CMsg) :
    List CMsg → List (List CMsg)
  | [] => if cur = [] then [] else [cur]
  | m :: rest =>
    if gapExceeded gapMs prev m && !cur.isEmpty then
      cur :: timeGo gapMs (some m) [m] rest
    else
      timeGo gapMs (some m) (cur ++ [m]) rest

/-- A freshly pushed chapter record (part_003 lines 109-115). -/
def rawChapter (ms : List CMsg) : Chapter :=
  { index := 0, title := "", messages := ms, startDate := 0, endDate := 0 }

/-- `chapterizeByTime` (part_003 lines 106-143). -/
def chapterizeByTime (msgs : List CMsg) (gapHours : Rat) : List Chapter :=
  (timeGo (timeGapMs gapHours) none [] msgs).map rawChapter

/-- The loop body of `chapterizeByBoth` (part_003 lines 163-193):
`countBreak = currentChapter.messages.length >= count`, and a boundary when
`(timeBreak || countBreak) && currentChapter.messages.length > 0`. -/
def bothGo (count : Nat) (gapMs : Rat) (prev : Option CMsg) (cur : List CMsg) :
    List CMsg → List (List CMsg)
  | [] => if cur = [] then [] else [cur]
  | m :: rest =>
    if (gapExceeded gapMs prev m || decide (count ≤ cur.length)) && !cur.isEmpty then
      cur :: bothGo count gapMs (some m) [m] rest
    else
      bothGo count gapMs (some m) (cur ++ [m]) rest

/-- `chapterizeByBoth` (part_003 lines 152-196). -/
def chapterizeByBoth (msgs : List CMsg) (count : Nat) (gapHours : Rat) :
    List Chapter :=
  (bothGo count (timeGapMs gapHours) none [] msgs).map rawChapter

/-- The `chapters.forEach` title/date assignment of `chapterize`
(part_003 lines 68-75). -/
def assignMeta (i : Nat) (ch : Chapter) : Chapter :=
  match ch.messages with
  | [] => { ch with index := i, title := ("Chapter " ++ toString (i + 1)) }
  | m :: rest =>
    { ch with
        index := i
        title := ("Chapter " ++ toString (i + 1))
        startDate := timeOf m
        endDate := timeOf (rest.getLastD m) }

/-- Apply `assignMeta` positionally, as the `forEach` does. -/
def assignTitles (chs : List Chapter) : List Chapter :=
  chs.enum.map fun p => assignMeta p.1 p.2

/-- `chapterize` (part_003 lines 34-78).  The `0 < messagesPerChapter`
hypothesis reflects the spec contract `messagesPerChapter: int > 0`; with
`messagesPerChapter = 0` the JavaScript count-mode loop never terminates
(claim C10). -/
def chapterize (msgs : List CMsg) (opts : ChapterizeOptions)
    (hc : 0 < opts.messagesPerChapter) : List Chapter :=
  match msgs with
  | [] => []
  | m :: rest =>
    if opts.mode = "none" then
      [{ index := 0, title := "Chapter 1", messages := m :: rest,
         startDate := timeOf m, endDate := timeOf (rest.getLastD m) }]
    else
      assignTitles
        (if opts.mode = "count" then
          chapterizeByCount (m :: rest) opts.messagesPerChapter hc
        else if opts.mode = "time" then
          chapterizeByTime (m :: rest) opts.timeGapHours
        else if opts.mode = "both" then
          chapterizeByBoth (m :: rest) opts.messagesPerChapter opts.timeGapHours
        else
          chapterizeByCount (m :: rest) opts.messagesPerChapter hc)

/-- Concatenation of all chapter message lists, in chapter order. -/
def chapterConcat (chs : List Chapter) : List CMsg :=
  (chs.map Chapter.messages).flatten

/-- Modelled from the spec words for time mode (claim C5): walking the tail
of the message list, "new chapter boundary immediately before any message
whose gap since the previous message exceeds the threshold". -/
def specSplitGapGo (gapMs : Rat) (p : CMsg) (cur : List CMsg) :
    List CMsg → List (List CMsg)
  | [] => [cur]
  | m :: rest =>
    if ((timeOf m - timeOf p : Int) : Rat) > gapMs then
      cur :: specSplitGapGo gapMs m [m] rest
    else
      specSplitGapGo gapMs m (cur ++ [m]) rest

/-- Modelled from the spec words for time mode (claim C5): the first message
never creates a boundary; thereafter boundaries are exactly the
strictly-exceeding gaps. -/
def specSplitByGap (gapMs : Rat) : List CMsg → List (List CMsg)
  | [] => []
  | m :: rest => specSplitGapGo gapMs m [m] rest

/-! ## Parser: timestamp normalization (`src/src/parser.js`, `normalizeSendDate`) -/

/-- A `send_date` value as received from the host: a JavaScript number
(modelled as `Int`) or a string. -/
inductive SendDate
  | num : Int → SendDate
  | str : String → SendDate
deriving Repr, DecidableEq

/-- The result of `normalizeSendDate`: either an absolute epoch-millisecond
time (`new Date(ms)`), or a local-time construction
`new Date(y, mo, d, hh, mi, ss)` whose absolute value depends on the host
timezone (`mo` is the already-decremented month argument). -/
inductive JDate
  | epochMs : Int → JDate
  | localDate : (y mo d hh mi ss : Nat) → JDate
deriving Repr, DecidableEq

/-- JavaScript falsiness of the modelled `send_date` values
(parser.js line 43: `if (!sendDate) return new Date(0)`). -/
def isFalsy : SendDate → Bool
  | .num n => n == 0
  | .str s => s == ""

/-- `String.prototype.trim`: strip leading and trailing whitespace
(implemented on the character list so that it evaluates by kernel
reduction). -/
def jsTrim (s : String) : String :=
  String.mk (((s.data.dropWhile Char.isWhitespace).reverse.dropWhile
    Char.isWhitespace).reverse)

/-- The test `/^\d+$/.test(sendDate.trim())` (parser.js line 51). -/
def isDigitString (s : String) : Bool :=
  !s.isEmpty && s.data.all Char.isDigit

/-- `Number(str)` for an all-digit string. -/
def digitsToNat (s : String) : Nat :=
  s.data.foldl (fun a c => a * 10 + (c.toNat - 48)) 0

/-- Split exactly `n` leading digit characters off a character list. -/
def splitDigits : Nat → List Char → Option (List Char × List Char)
  | 0, l => some ([], l)
  | _ + 1, [] => none
  | n + 1, c :: l =>
    if c.isDigit then
      match splitDigits n l with
      | some (ds, r) => some (c :: ds, r)
      | none => none
    else none

/-- Value of a digit-character list (the `parseInt` of a regex group). -/
def digitsVal (cs : List Char) : Nat :=
  cs.foldl (fun a c => a * 10 + (c.toNat - 48)) 0

/-- Match the custom pattern `\d{4}-\d{2}-\d{2}@\d{2}h\d{2}m\d{2}s`
(parser.js line 66) at the head of the character list, returning the six
parsed groups. -/
def customAt (l : List Char) : Option (Nat × Nat × Nat × Nat × Nat × Nat) := do
  let (y, r1) ← splitDigits 4 l
  match r1 with
  | '-' :: r2 => do
    let (mo, r3) ← splitDigits 2 r2
    match r3 with
    | '-' :: r4 => do
      let (d, r5) ← splitDigits 2 r4
      match r5 with
      | '@' :: r6 => do
        let (hh, r7) ← splitDigits 2 r6
        match r7 with
        | 'h' :: r8 => do
          let (mi, r9) ← splitDigits 2 r8
          match r9 with
          | 'm' :: r10 => do
            let (ss, r11) ← splitDigits 2 r10
            match r11 with
            | 's' :: _ =>
              some (digitsVal y, digitsVal mo, digitsVal d,
                    digitsVal hh, digitsVal mi, digitsVal ss)
            | _ => none
          | _ => none
        | _ => none
      | _ => none
    | _ => none
  | _ => none

/-- `String.prototype.match` with the unanchored custom pattern: the first
position, scanning left to right, at which the pattern matches. -/
def customFormatFind : List Char → Option (Nat × Nat × Nat × Nat × Nat × Nat)
  | [] => none
  | c :: rest =>
    match customAt (c :: rest) with
    | some v => some v
    | none => customFormatFind rest

/-- `normalizeSendDate` (parser.js lines 42-80).  `parseStd` models the
host-dependent standard date parser `new Date(string)` (returning `none`
when `isNaN(d.getTime())`); everything else follows the source branch by
branch: falsy input → epoch zero; a number → epoch milliseconds; an
all-digit string the numeric value, scaled by 1000 when below `10^12`;
otherwise the standard parser, then the custom format, then epoch zero. -/
def normalizeSendDate (parseStd : String → Option Int) (sendDate : SendDate) :
    JDate :=
  if isFalsy sendDate then .epochMs 0
  else
    match sendDate with
    | .num n => .epochMs n
    | .str s =>
      if isDigitString (jsTrim s) then
        let v : Nat := digitsToNat (jsTrim s)
        if (v : Int) < 10 ^ 12 then .epochMs (v * 1000) else .epochMs v
      else
        match parseStd s with
        | some ms => .epochMs ms
        | none =>
          match customFormatFind s.data with
          | some (y, mo, d, hh, mi, ss) => .localDate y (mo - 1) d hh mi ss
          | none => .epochMs 0

/-- A standard parser that accepts nothing, for concrete evaluations. -/
def parseStdNone : String → Option Int := fun _ => none

/-! ## Dialogue styler (`src/src/renderer.js`, `styleDialogue`)

The JavaScript is
`html.replace(/(?<=>|^)([^<]*?"[^"]*?"[^<]*?)(?=<|$)/g, m => m.replace(/"([^"]+)"/g, span))`.
The outer regex matches at a position whose previous character is `>` (or at
the string start); the lazy groups and the lookahead force the match to be
exactly the run of non-`<` characters extending to the next `<` (or the
end), provided that run contains at least two `"` characters.  The inner
replace wraps every `"…"` pair with non-empty content in the dialogue span.
`styleGo` implements the global scan (`canStart` records whether the
lookbehind holds at the current position), `wrapPairs` the inner replace. -/

/-- The literal `<span class="cn-dialogue">` of the replacement. -/
def spanOpen : List Char := "<span class=\"cn-dialogue\">".data

/-- The literal `</span>` of the replacement. -/
def spanClose : List Char := "</span>".data

/-- The inner replace `"([^"]+)"` → `<span class="cn-dialogue">"$1"</span>`:
scan left to right; a `"` starts a match when a closing `"` follows with at
least one interior character; otherwise the scan advances one character. -/
def wrapPairs : List Char → List Char
  | [] => []
  | c :: rest =>
    if c = '"' ∧ rest.takeWhile (fun x => x != '"') ≠ []
        ∧ (rest.takeWhile (fun x => x != '"')).length < rest.length then
      spanOpen ++ ('"' :: rest.takeWhile (fun x => x != '"')) ++ ('"' :: spanClose)
        ++ wrapPairs (rest.drop ((rest.takeWhile (fun x => x != '"')).length + 1))
    else c :: wrapPairs rest
termination_by s => s.length
decreasing_by
  all_goals simp [List.length_drop]
  omega

/-- The outer global scan.  At a `<` the scan just advances (no match can
start there).  At another character with the lookbehind satisfied
(`canStart`), the match candidate is the non-`<` run from here to the next
`<`/end; it matches exactly when it contains at least two `"`, in which case
the whole run is rewritten by `wrapPairs` and the scan resumes at the `<`.
Otherwise the scan advances one character, the lookbehind now holding only
after a `>`. -/
def styleGo : Bool → List Char → List Char
  | _, [] => []
  | canStart, c :: rest =>
    if c = '<' then c :: styleGo false rest
    else if canStart && decide (2 ≤ (c :: rest.takeWhile (fun x => x != '<')).count '"') then
      wrapPairs (c :: rest.takeWhile (fun x => x != '<'))
        ++ styleGo false (rest.dropWhile (fun x => x != '<'))
    else c :: styleGo (c == '>') rest
termination_by _ s => s.length
decreasing_by
  all_goals simp
  · have hdw : ∀ (p : Char → Bool) (l : List Char),
        (l.dropWhile p).length ≤ l.length := by
      intro p l
      induction l with
      | nil => simp [List.dropWhile]
      | cons a l ih =>
        simp only [List.dropWhile]
        cases p a
        · simp
        · simp
          omega
    exact Nat.lt_succ_of_le (hdw _ _)

/-- `styleDialogue(html, enabled)` (renderer.js lines 418-427): disabled or
empty input passes through unchanged. -/
def styleDialogue (html : List Char) (enabled : Bool) : List Char :=
  if !enabled || html.isEmpty then html else styleGo true html

/-- An HTML string decomposed into tags and text runs, for stating what the
dialogue styler does to quotes inside and outside tags (claim C7). -/
inductive Piece
  | tag : List Char → Piece
  | text : List Char → Piece
deriving Repr, DecidableEq

/-- The characters of a piece. -/
def pieceVal : Piece → List Char
  | .tag s => s
  | .text s => s

/-- Concatenate the pieces back into the HTML string. -/
def renderPieces : List Piece → List Char
  | [] => []
  | p :: ps => pieceVal p ++ renderPieces ps

/-- What the amended claim C7 says the styler does: wrap the straight
double-quote pairs of every text run, leave every tag untouched. -/
def stylePiece : Piece → Piece
  | .tag s => .tag s
  | .text s => .text (wrapPairs s)

/-- Well-formedness of a piece: a tag is `<…>` with no `<`/`>` in its
interior (attribute values may contain `"`); a text run contains no `<`. -/
def pieceOK : Piece → Prop
  | .tag s => ∃ mid, s = '<' :: (mid ++ ['>'])
      ∧ mid.all (fun c => c != '<' && c != '>') = true
  | .text s => s.all (fun c => c != '<') = true

/-- No two adjacent text runs (adjacent runs would merge for the scanner). -/
def noAdjacentTexts : List Piece → Prop
  | .text _ :: .text _ :: _ => False
  | _ :: rest => noAdjacentTexts rest
  | [] => True

/-- Substring test, used to state that no dialogue span was inserted. -/
def hasSub (pat : List Char) : List Char → Bool
  | [] => pat.isEmpty
  | c :: rest => pat.isPrefixOf (c :: rest) || hasSub pat rest

/-! ## Generic string-scanning helpers for the renderer embedding

JavaScript strings are modelled as `List Char`; each regex of the renderer
is implemented as a dedicated matcher with the exact matching semantics of
that regex (documented at each definition). -/

/-- Case-insensitive character comparison (the regex `i` flag). -/
def chEqCI (a b : Char) : Bool := a.toLower == b.toLower

/-- Case-insensitive prefix test. -/
def startsWithCI : List Char → List Char → Bool
  | [], _ => true
  | _ :: _, [] => false
  | p :: ps, c :: cs => chEqCI p c && startsWithCI ps cs

/-- Index of the first case-sensitive occurrence of `pat`. -/
def findSub (pat : List Char) : List Char → Option Nat
  | [] => if pat = [] then some 0 else none
  | c :: rest =>
    if pat.isPrefixOf (c :: rest) then some 0
    else (findSub pat rest).map (· + 1)

/-- Index of the first case-insensitive occurrence of `pat`. -/
def findSubCI (pat : List Char) : List Char → Option Nat
  | [] => if pat = [] then some 0 else none
  | c :: rest =>
    if startsWithCI pat (c :: rest) then some 0
    else (findSubCI pat rest).map (· + 1)

/-- `String.replace` with a string pattern: replace the first occurrence
of the non-empty literal `pat` by `repl`. -/
def replaceFirst (pat repl : List Char) : List Char → List Char
  | [] => []
  | c :: rest =>
    if pat.isPrefixOf (c :: rest) ∧ pat ≠ [] then
      repl ++ (c :: rest).drop pat.length
    else c :: replaceFirst pat repl rest

/-- Global case-insensitive replace of a literal pattern
(non-overlapping, left to right). -/
def replaceAllCI (pat repl : List Char) : List Char → List Char
  | [] => []
  | c :: rest =>
    if startsWithCI pat (c :: rest) ∧ pat ≠ [] then
      repl ++ replaceAllCI pat repl (rest.drop (pat.length - 1))
    else c :: replaceAllCI pat repl rest
termination_by s => s.length
decreasing_by
  all_goals simp [List.length_drop]
  omega

/-- JS `trim` on a character list. -/
def trimL (l : List Char) : List Char :=
  ((l.dropWhile Char.isWhitespace).reverse.dropWhile Char.isWhitespace).reverse

/-- A regex `\w` word character (`[A-Za-z0-9_]`). -/
def isWordChar (c : Char) : Bool := c.isAlphanum || c == '_'

/-- A regex `\b` after a literal: the character at offset `i` is absent or
not a word character. -/
def noWordCharAt (l : List Char) (i : Nat) : Bool :=
  match l.drop i with
  | [] => true
  | c :: _ => !isWordChar c

/-- `escapeHtml` (src/src/utils.js): five sequential global replaces
(`&`, `<`, `>`, `"`, the apostrophe) that collapse to one per-character map
because no later pass rewrites the output of an earlier one.
`escapeAttr` (src/src/imageHandler.js) replaces the same five characters
with the same entities, so it is the same function. -/
def escChar (c : Char) : List Char :=
  if c = '&' then "&amp;".data
  else if c = '<' then "&lt;".data
  else if c = '>' then "&gt;".data
  else if c = '"' then "&quot;".data
  else if c = Char.ofNat 39 then "&#x27;".data
  else [c]

/-- See `escChar`. -/
def escapeHtml (l : List Char) : List Char := (l.map escChar).flatten

/-- `escapeAttr` of src/src/imageHandler.js (same map, see `escChar`). -/
def escapeAttr (l : List Char) : List Char := (l.map escChar).flatten

/-- A protection token `\x00KIND{i}\x00` (renderer.js `protectBlock` and
the code-block/inline-code extractions). -/
def tokenOf (kind : List Char) (i : Nat) : List Char :=
  Char.ofNat 0 :: (kind ++ (toString i).data ++ [Char.ofNat 0])

/-! ## Renderer pipeline stages (`src/src/renderer.js`) -/

/-- `substituteUserMacro` (renderer.js lines 18-21):
`text.replace(/\x7b\x7buser\x7d\x7d/gi, userName)` with pass-through when
the text or the name is empty (falsy). -/
def substUser (text userName : List Char) : List Char :=
  if text = [] ∨ userName = [] then text
  else replaceAllCI "\x7b\x7buser\x7d\x7d".data userName text

/-- `substituteCharMacro` (renderer.js lines 29-32). -/
def substChar (text characterName : List Char) : List Char :=
  if text = [] ∨ characterName = [] then text
  else replaceAllCI "\x7b\x7bchar\x7d\x7d".data characterName text

/-- Search a `<`-free run for `이전` followed by whitespace and `정보`
(the `[^<]*이전\s*정보[^<]*` core of the header regex). -/
def prevInfoRun : List Char → Bool
  | [] => false
  | c :: rest =>
    (("이전".data).isPrefixOf (c :: rest)
      && ("정보".data).isPrefixOf (((c :: rest).drop 2).dropWhile Char.isWhitespace))
    || prevInfoRun rest

/-- Match at the head the header regex of `unwrapPreviousInfoBlocks`
(renderer.js line 50),
`<details[^>]*>\s*<summary[^>]*>[^<]*이전\s*정보[^<]*<\/summary>` with
flags `gi`, returning the total match length. -/
def prevInfoHeaderAt (l : List Char) : Option Nat :=
  if startsWithCI "<details".data l then
    let r1 := l.drop 8
    let a1 := r1.takeWhile (fun x => x != '>')
    if a1.length < r1.length then
      let r2 := r1.drop (a1.length + 1)
      let ws := r2.takeWhile Char.isWhitespace
      let r3 := r2.drop ws.length
      if startsWithCI "<summary".data r3 then
        let r4 := r3.drop 8
        let a2 := r4.takeWhile (fun x => x != '>')
        if a2.length < r4.length then
          let r5 := r4.drop (a2.length + 1)
          let run := r5.takeWhile (fun x => x != '<')
          let r6 := r5.drop run.length
          if prevInfoRun run && startsWithCI "</summary>".data r6 then
            some (8 + a1.length + 1 + ws.length + 8 + a2.length + 1
              + run.length + 10)
          else none
        else none
      else none
    else none
  else none

/-- Global removal of every previous-info header match (replace by `''`). -/
def stripPrevInfoHeaders : List Char → List Char
  | [] => []
  | c :: rest =>
    match prevInfoHeaderAt (c :: rest) with
    | some len => stripPrevInfoHeaders (rest.drop (len - 1))
    | none => c :: stripPrevInfoHeaders rest
termination_by s => s.length
decreasing_by
  all_goals simp [List.length_drop]
  omega

/-- Count the matches of `/<details\b/gi` (renderer.js line 57). -/
def countDetailsOpen : List Char → Nat
  | [] => 0
  | c :: rest =>
    (if startsWithCI "<details".data (c :: rest)
        && noWordCharAt (c :: rest) 8 then 1 else 0) + countDetailsOpen rest

/-- Match `/<\/details\s*>/i` at the head, returning its length. -/
def detailsCloseAt (l : List Char) : Option Nat :=
  if startsWithCI "</details".data l then
    let r := l.drop 9
    let ws := r.takeWhile Char.isWhitespace
    match r.drop ws.length with
    | '>' :: _ => some (9 + ws.length + 1)
    | _ => none
  else none

/-- Count the matches of `/<\/details\s*>/gi` (renderer.js line 58). -/
def countDetailsClose : List Char → Nat
  | [] => 0
  | c :: rest =>
    (if (detailsCloseAt (c :: rest)).isSome then 1 else 0) + countDetailsClose rest

/-- Match `/<\/details\s*>/` (case-sensitive: the orphan-removal replace on
renderer.js line 62 carries no `i` flag) at the head. -/
def detailsCloseCsAt (l : List Char) : Option Nat :=
  if ("</details".data).isPrefixOf l then
    let r := l.drop 9
    let ws := r.takeWhile Char.isWhitespace
    match r.drop ws.length with
    | '>' :: _ => some (9 + ws.length + 1)
    | _ => none
  else none

/-- Remove the first `</details\s*>` match. -/
def removeFirstDetailsClose : List Char → List Char
  | [] => []
  | c :: rest =>
    match detailsCloseCsAt (c :: rest) with
    | some len => (c :: rest).drop len
    | none => c :: removeFirstDetailsClose rest

/-- The `while (closeCount > openCount)` orphan-removal loop
(renderer.js lines 61-64), run `closeCount - openCount` times. -/
def removeExcessCloses : Nat → List Char → List Char
  | 0, t => t
  | k + 1, t => removeExcessCloses k (removeFirstDetailsClose t)

/-- `unwrapPreviousInfoBlocks` (renderer.js lines 46-67): strip the header
tags of `이전 정보` details blocks (keeping the content), then remove as
many orphaned `</details>` as there are excess closers. -/
def unwrapPreviousInfoBlocks (text : List Char) : List Char :=
  if text = [] then text
  else
    let t := stripPrevInfoHeaders text
    removeExcessCloses (countDetailsClose t - countDetailsOpen t) t

/-- Index of the last newline of a character list. -/
def lastNlIdx : List Char → Option Nat
  | [] => none
  | c :: rest =>
    match lastNlIdx rest with
    | some i => some (i + 1)
    | none => if c = '\n' then some 0 else none

/-- Match `/^\s*\|\s*$/m` at a line-start position: greedy whitespace
(`\s` includes newlines), a `|`, then whitespace up to the end of input or
up to (not including) the last newline of that trailing whitespace run
(the `$` of the multiline flag, after greedy backtracking). -/
def cursorLineMatchAt (l : List Char) : Option Nat :=
  let ws1 := l.takeWhile Char.isWhitespace
  match l.drop ws1.length with
  | '|' :: r2 =>
    let ws2 := r2.takeWhile Char.isWhitespace
    if r2.drop ws2.length = [] then some (ws1.length + 1 + ws2.length)
    else
      match lastNlIdx ws2 with
      | some j => some (ws1.length + 1 + j)
      | none => none
  | _ => none

/-- The global scan of `text.replace(/^\s*\|\s*$/gm, '')`: `atStart` holds
at `^` positions (string start or just after a newline). -/
def cursorLineScan : Bool → List Char → List Char
  | _, [] => []
  | atStart, c :: rest =>
    if atStart then
      match cursorLineMatchAt (c :: rest) with
      | some len =>
        cursorLineScan
          (match (c :: rest).drop (len - 1) with
            | '\n' :: _ => true
            | _ => false)
          (rest.drop (len - 1))
      | none => c :: cursorLineScan (c == '\n') rest
    else c :: cursorLineScan (c == '\n') rest
termination_by _ s => s.length
decreasing_by
  all_goals simp [List.length_drop]
  omega

/-- Match `/<cursor\s*\/?>/i` at the head. -/
def cursorTagAt (l : List Char) : Option Nat :=
  if startsWithCI "<cursor".data l then
    let r := l.drop 7
    let ws := r.takeWhile Char.isWhitespace
    match r.drop ws.length with
    | '/' :: '>' :: _ => some (7 + ws.length + 2)
    | '>' :: _ => some (7 + ws.length + 1)
    | _ => none
  else none

/-- Global removal of `<cursor>` tags (renderer.js line 148). -/
def removeCursorTags : List Char → List Char
  | [] => []
  | c :: rest =>
    match cursorTagAt (c :: rest) with
    | some len => removeCursorTags (rest.drop (len - 1))
    | none => c :: removeCursorTags rest
termination_by s => s.length
decreasing_by
  all_goals simp [List.length_drop]
  omega

/-- `text.replace(/\n\x7b3,\x7d/g, '\n\n')` (renderer.js line 152):
collapse every run of three or more newlines to two. -/
def collapseNewlines : List Char → List Char
  | [] => []
  | c :: rest =>
    if c = '\n' ∧ 2 ≤ (rest.takeWhile (fun x => x == '\n')).length then
      '\n' :: '\n' ::
        collapseNewlines (rest.drop (rest.takeWhile (fun x => x == '\n')).length)
    else c :: collapseNewlines rest
termination_by s => s.length
decreasing_by
  all_goals simp [List.length_drop]
  omega

/-- `removeCursorMarkers` (renderer.js lines 140-155): standalone `|`
lines, `<cursor>` tags, `\x7b\x7bcursor\x7d\x7d` macros, then newline
collapsing. -/
def removeCursorMarkers (text : List Char) : List Char :=
  if text = [] then text
  else
    collapseNewlines
      (replaceAllCI "\x7b\x7bcursor\x7d\x7d".data []
        (removeCursorTags (cursorLineScan true text)))

/-- Strip a leading `/^\d+[\.\)\-]\s*/` from a choice line
(renderer.js line 175). -/
def stripLeadingNumber (l : List Char) : List Char :=
  let ds := l.takeWhile Char.isDigit
  if ds ≠ [] then
    match l.drop ds.length with
    | c :: r =>
      if c = '.' ∨ c = ')' ∨ c = '-' then r.dropWhile Char.isWhitespace
      else l
    | [] => l
  else l

/-- The card list built by the `<choices>` replace callback
(renderer.js lines 173-180), given the filtered non-blank lines. -/
def choicesHtml (lines : List (List Char)) : List Char :=
  "<div class=\"cn-choices-container\"><div class=\"cn-choices-header\">선택지</div>".data
    ++ (lines.enum.map (fun p =>
          let cl := trimL (stripLeadingNumber p.2)
          if cl ≠ [] then
            "<div class=\"cn-choice-card\"><span class=\"cn-choice-number\">".data
              ++ (toString (p.1 + 1)).data ++ ".</span><span class=\"cn-choice-text\">".data
              ++ escapeHtml cl ++ "</span></div>".data
          else [])).flatten
    ++ "</div>".data

/-- Match `/<choices>([\s\S]*?)<\/choices>/i` at the head: the literal
opening tag, the lazy content up to the first closing tag, the closing
tag.  Returns total length and the content group. -/
def choicesAt (l : List Char) : Option (Nat × List Char) :=
  if startsWithCI "<choices>".data l then
    let r := l.drop 9
    match findSubCI "</choices>".data r with
    | some j => some (9 + j + 10, r.take j)
    | none => none
  else none

/-- The global `<choices>` replace (renderer.js lines 169-183): an empty
card list (no non-blank lines) leaves the match unchanged. -/
def processChoicesScan : List Char → List Char
  | [] => []
  | c :: rest =>
    match choicesAt (c :: rest) with
    | some (len, content) =>
      if ((trimL content).splitOn '\n').filter (fun ln => trimL ln ≠ []) = [] then
        (c :: rest).take len ++ processChoicesScan (rest.drop (len - 1))
      else
        choicesHtml (((trimL content).splitOn '\n').filter (fun ln => trimL ln ≠ []))
          ++ processChoicesScan (rest.drop (len - 1))
    | none => c :: processChoicesScan rest
termination_by s => s.length
decreasing_by
  all_goals simp [List.length_drop]
  omega

/-- `processChoices` (renderer.js lines 165-185). -/
def processChoices (text : List Char) : List Char :=
  if text = [] then text else processChoicesScan text

/-! ## Markdown renderer (`renderMarkdown`, renderer.js lines 197-408) -/

/-- The backtick character. -/
def backtick : Char := Char.ofNat 96

/-- Match a code fence (the regex on renderer.js line 210): three
backticks, a greedy word run (language tag), an optional newline, then the
lazy content up to the next three backticks.  Returns total length and the
content group. -/
def fenceAt (l : List Char) : Option (Nat × List Char) :=
  if ([backtick, backtick, backtick]).isPrefixOf l then
    let r1 := l.drop 3
    let w := r1.takeWhile isWordChar
    let r2 := r1.drop w.length
    let nl : Nat :=
      match r2 with
      | '\n' :: _ => 1
      | _ => 0
    let r3 := r2.drop nl
    match findSub [backtick, backtick, backtick] r3 with
    | some j => some (3 + w.length + nl + j + 3, r3.take j)
    | none => none
  else none

/-- The code-fence extraction pass (renderer.js lines 209-214): each match
becomes a `\x00CODEBLOCK{i}\x00` token, storing
`<pre class="cn-code-block"><code>` + escaped trimmed code + `</code></pre>`. -/
def fenceScan : Nat → List Char → List Char × List (List Char)
  | _, [] => ([], [])
  | idx, c :: rest =>
    match fenceAt (c :: rest) with
    | some (len, code) =>
      let res := fenceScan (idx + 1) (rest.drop (len - 1))
      (tokenOf "CODEBLOCK".data idx ++ res.1,
       ("<pre class=\"cn-code-block\"><code>".data ++ escapeHtml (trimL code)
         ++ "</code></pre>".data) :: res.2)
    | none =>
      let res := fenceScan idx rest
      (c :: res.1, res.2)
termination_by _ s => s.length
decreasing_by
  all_goals simp [List.length_drop]
  omega

/-- Match an inline-code span (the regex on renderer.js line 218): a
backtick, at least one non-backtick character, a closing backtick. -/
def inlineCodeAt (l : List Char) : Option (Nat × List Char) :=
  match l with
  | c :: rest =>
    if c = backtick then
      let content := rest.takeWhile (fun x => x != backtick)
      if content ≠ [] ∧ content.length < rest.length then
        some (1 + content.length + 1, content)
      else none
    else none
  | [] => none

/-- The inline-code extraction pass (renderer.js lines 217-222). -/
def inlineCodeScan : Nat → List Char → List Char × List (List Char)
  | _, [] => ([], [])
  | idx, c :: rest =>
    match inlineCodeAt (c :: rest) with
    | some (len, code) =>
      let res := inlineCodeScan (idx + 1) (rest.drop (len - 1))
      (tokenOf "INLINECODE".data idx ++ res.1,
       ("<code class=\"cn-inline-code\">".data ++ escapeHtml code
         ++ "</code>".data) :: res.2)
    | none =>
      let res := inlineCodeScan idx rest
      (c :: res.1, res.2)
termination_by _ s => s.length
decreasing_by
  all_goals simp [List.length_drop]
  omega

/-- Match `/<TAG\b[^>]*>[\s\S]*?<\/TAG>/i` at the head (the four
protected-block regexes, renderer.js lines 225-234). -/
def tagBlockAt (tag : List Char) (l : List Char) : Option Nat :=
  if startsWithCI ('<' :: tag) l && noWordCharAt l (1 + tag.length) then
    let r1 := l.drop (1 + tag.length)
    let a := r1.takeWhile (fun x => x != '>')
    if a.length < r1.length then
      let r2 := r1.drop (a.length + 1)
      match findSubCI ('<' :: '/' :: (tag ++ ['>'])) r2 with
      | some j => some (1 + tag.length + a.length + 1 + j + 2 + tag.length + 1)
      | none => none
    else none
  else none

/-- One protected-block extraction pass (`protectBlock`,
renderer.js lines 201-206): the matched text is stored verbatim and the
match replaced by a `\x00HTMLBLOCK{i}\x00` token. -/
def protectScan (tag : List Char) : Nat → List Char → List Char × List (List Char)
  | _, [] => ([], [])
  | idx, c :: rest =>
    match tagBlockAt tag (c :: rest) with
    | some len =>
      let res := protectScan tag (idx + 1) (rest.drop (len - 1))
      (tokenOf "HTMLBLOCK".data idx ++ res.1, (c :: rest).take len :: res.2)
    | none =>
      let res := protectScan tag idx rest
      (c :: res.1, res.2)
termination_by _ s => s.length
decreasing_by
  all_goals simp [List.length_drop]
  omega

/-- The block-level element names of the depth-tracking regexes
(renderer.js lines 239-240). -/
def blockTags : List (List Char) :=
  ["div".data, "details".data, "section".data, "article".data, "aside".data,
   "nav".data, "header".data, "footer".data, "form".data, "fieldset".data,
   "figure".data, "main".data, "iframe".data, "pre".data, "dl".data]

/-- Does the opening-tag regex `/<(div|…)\b/i` match at the head? -/
def blockOpenHere (l : List Char) : Bool :=
  blockTags.any (fun tag =>
    startsWithCI ('<' :: tag) l && noWordCharAt l (1 + tag.length))

/-- Does the closing-tag regex `/<\/(div|…)\s*>/i` match at the head? -/
def blockCloseHere (l : List Char) : Bool :=
  blockTags.any (fun tag =>
    startsWithCI ('<' :: '/' :: tag) l
      && (match (l.drop (2 + tag.length)).dropWhile Char.isWhitespace with
          | '>' :: _ => true
          | _ => false))

/-- `countBlockOpens` (renderer.js line 242): every match start is a `<`
and a match contains no other `<`, so matches equal matching positions. -/
def countBlockOpens : List Char → Nat
  | [] => 0
  | c :: rest => (if blockOpenHere (c :: rest) then 1 else 0) + countBlockOpens rest

/-- `countBlockCloses` (renderer.js line 243). -/
def countBlockCloses : List Char → Nat
  | [] => 0
  | c :: rest => (if blockCloseHere (c :: rest) then 1 else 0) + countBlockCloses rest

/-- Match the heading regex `^(#\x7b1,6\x7d)\s+(.+)$` (renderer.js
line 304): one to six `#` (a seventh makes every split fail), at least one
whitespace, and a non-empty remainder; when the tail is all whitespace the
greedy `\s+` backtracks to leave exactly one character of content. -/
def headingAt (l : List Char) : Option (Nat × List Char) :=
  let hs := l.takeWhile (fun x => x == '#')
  if 1 ≤ hs.length ∧ hs.length ≤ 6 then
    let r := l.drop hs.length
    let ws := r.takeWhile Char.isWhitespace
    if ws.length = 0 then none
    else if ws.length < r.length then some (hs.length, r.drop ws.length)
    else if 2 ≤ ws.length then some (hs.length, r.drop (ws.length - 1))
    else none
  else none

/-- Match the horizontal-rule regex `^[-*_]\x7b3,\x7d\s*$`
(renderer.js line 313). -/
def isHrLine (l : List Char) : Bool :=
  let run := l.takeWhile (fun x => x == '-' || x == '*' || x == '_')
  decide (3 ≤ run.length) && (l.drop run.length).all Char.isWhitespace

/-- `trimmed.replace(/^>\s?/, '')` (renderer.js line 320). -/
def blockquoteContent (l : List Char) : List Char :=
  match l with
  | '>' :: rest =>
    match rest with
    | c :: r => if c.isWhitespace then r else rest
    | [] => []
  | other => other

/-- Match the unordered-item regex `^[\-\*]\s+(.+)$` (renderer.js
line 326), with the same `\s+`/`(.+)` backtracking as headings. -/
def ulItemAt (l : List Char) : Option (List Char) :=
  match l with
  | c :: r =>
    if c = '-' ∨ c = '*' then
      let ws := r.takeWhile Char.isWhitespace
      if ws.length = 0 then none
      else if ws.length < r.length then some (r.drop ws.length)
      else if 2 ≤ ws.length then some (r.drop (ws.length - 1))
      else none
    else none
  | [] => none

/-- Match the ordered-item regex `^\d+\.\s+(.+)$` (renderer.js line 339). -/
def olItemAt (l : List Char) : Option (List Char) :=
  let ds := l.takeWhile Char.isDigit
  if ds ≠ [] then
    match l.drop ds.length with
    | '.' :: r =>
      let ws := r.takeWhile Char.isWhitespace
      if ws.length = 0 then none
      else if ws.length < r.length then some (r.drop ws.length)
      else if 2 ≤ ws.length then some (r.drop (ws.length - 1))
      else none
    | _ => none
  else none

/-- The list-continuation test `^[\-\*]\s` (renderer.js line 292). -/
def ulStart2 (l : List Char) : Bool :=
  match l with
  | c :: d :: _ => (c == '-' || c == '*') && d.isWhitespace
  | _ => false

/-- The list-continuation test `^\d+\.\s` (renderer.js line 292). -/
def olStart2 (l : List Char) : Bool :=
  (l.takeWhile Char.isDigit ≠ []) &&
    (match l.drop (l.takeWhile Char.isDigit).length with
     | '.' :: d :: _ => d.isWhitespace
     | _ => false)

/-- One alternative of the token-line regex. -/
def tokenKindLine (kind : List Char) (r : List Char) : Bool :=
  if kind.isPrefixOf r then
    (((r.drop kind.length).takeWhile Char.isDigit) ≠ []) &&
      ((r.drop kind.length).drop
        ((r.drop kind.length).takeWhile Char.isDigit).length = [Char.ofNat 0])
  else false

/-- The token-line test `^\x00(HTMLBLOCK|CODEBLOCK|INLINECODE)\d+\x00$`
(renderer.js line 352). -/
def isTokenLine (l : List Char) : Bool :=
  match l with
  | c :: r =>
    (c == Char.ofNat 0) &&
      (tokenKindLine "HTMLBLOCK".data r || tokenKindLine "CODEBLOCK".data r
        || tokenKindLine "INLINECODE".data r)
  | [] => false

/-- The opening-HTML-line test `/^<[a-zA-Z]/` (renderer.js line 267). -/
def startsOpenTagLetter (l : List Char) : Bool :=
  match l with
  | '<' :: c :: _ => c.isAlpha
  | _ => false

/-- The closing-HTML-line test `/^<\/[a-zA-Z]/` (renderer.js line 282). -/
def startsCloseTagLetter (l : List Char) : Bool :=
  match l with
  | '<' :: '/' :: c :: _ => c.isAlpha
  | _ => false

/-- Lazy delimited inline replace (`/\*\*\*(.+?)\*\*\*/g` and friends,
renderer.js lines 392-402): at an opening delimiter the content is the
shortest non-empty stretch up to the next delimiter occurrence; `.` does
not match a newline, so a content containing one never matches. -/
def replaceDelim (delim openT closeT : List Char) : List Char → List Char
  | [] => []
  | c :: rest =>
    if delim.isPrefixOf (c :: rest) ∧ delim ≠ [] then
      match findSub delim (((c :: rest).drop delim.length).drop 1) with
      | some j =>
        if (((c :: rest).drop delim.length).take (j + 1)).any (fun x => x == '\n') then
          c :: replaceDelim delim openT closeT rest
        else
          openT ++ ((c :: rest).drop delim.length).take (j + 1) ++ closeT
            ++ replaceDelim delim openT closeT
                (rest.drop (delim.length + j + 1 + delim.length - 1))
      | none => c :: replaceDelim delim openT closeT rest
    else c :: replaceDelim delim openT closeT rest
termination_by s => s.length
decreasing_by
  all_goals simp [List.length_drop]
  omega

/-- The link-text group `[^\]]+` of the link regex. -/
def linkT1 (rest : List Char) : List Char := rest.takeWhile (fun x => x != ']')

/-- The remainder after `[$1](`. -/
def linkR2 (rest : List Char) : List Char := rest.drop ((linkT1 rest).length + 2)

/-- The link-target group `[^)]+` of the link regex. -/
def linkT2 (rest : List Char) : List Char :=
  (linkR2 rest).takeWhile (fun x => x != ')')

/-- The link replace `/\[([^\]]+)\]\(([^)]+)\)/g` (renderer.js line 405),
rewriting to `<a href="$2" target="_blank" rel="noopener">$1</a>`. -/
def linkScan : List Char → List Char
  | [] => []
  | c :: rest =>
    if c = '[' ∧ linkT1 rest ≠ [] ∧ (linkT1 rest).length < rest.length
        ∧ (rest.drop ((linkT1 rest).length + 1)).head? = some '('
        ∧ linkT2 rest ≠ [] ∧ (linkT2 rest).length < (linkR2 rest).length then
      "<a href=\"".data ++ linkT2 rest
        ++ "\" target=\"_blank\" rel=\"noopener\">".data
        ++ linkT1 rest ++ "</a>".data
        ++ linkScan (rest.drop ((linkT1 rest).length + 2 + (linkT2 rest).length + 1))
    else c :: linkScan rest
termination_by s => s.length
decreasing_by
  all_goals simp [List.length_drop]
  omega

/-- `processInlineMarkdown` (renderer.js lines 389-408): triple emphasis,
bold, italic, strikethrough, then links, in that order. -/
def processInlineMarkdown (text : List Char) : List Char :=
  if text = [] then []
  else
    linkScan
      (replaceDelim "~~".data "<del>".data "</del>".data
        (replaceDelim "*".data "<em>".data "</em>".data
          (replaceDelim "**".data "<strong>".data "</strong>".data
            (replaceDelim "***".data "<strong><em>".data "</em></strong>".data
              text))))

/-- The `listType === 'ul' ? '</ul>' : '</ol>'` closer. -/
def closeListTag (listType : String) : List Char :=
  if listType = "ul" then "</ul>".data else "</ol>".data

/-- A heading line (renderer.js line 308). -/
def headingHtml (lvl : Nat) (content : List Char) : List Char :=
  "<h".data ++ (toString lvl).data ++ " class=\"cn-heading\">".data
    ++ processInlineMarkdown content
    ++ "</h".data ++ (toString lvl).data ++ [Char.ofNat 62]

/-- A list-item line (renderer.js lines 334 and 347). -/
def liHtml (content : List Char) : List Char :=
  "<li class=\"cn-list-item\">".data ++ processInlineMarkdown content
    ++ "</li>".data

/-- A paragraph line (renderer.js line 358). -/
def paragraphHtml (content : List Char) : List Char :=
  "<p class=\"cn-paragraph\">".data ++ processInlineMarkdown content
    ++ "</p>".data

/-- One iteration of the markdown line loop (renderer.js lines 251-359):
the emitted lines plus the updated `(inList, listType, htmlBlockDepth)`
state.  The depth updates clamp at zero exactly as the source does. -/
def mdStep (inList : Bool) (listType : String) (depth : Nat) (line : List Char) :
    List (List Char) × Bool × String × Nat :=
  let trimmed := trimL line
  if 0 < depth then
    (([line], inList, listType,
      ((depth + countBlockOpens trimmed : Int) - countBlockCloses trimmed).toNat))
  else if startsOpenTagLetter trimmed then
    if countBlockCloses trimmed < countBlockOpens trimmed then
      ([line], inList, listType, countBlockOpens trimmed - countBlockCloses trimmed)
    else ([trimmed], inList, listType, 0)
  else if startsCloseTagLetter trimmed then
    ([trimmed], inList, listType, ((depth : Int) - countBlockCloses trimmed).toNat)
  else
    let breakList := inList && !(ulStart2 trimmed) && !(olStart2 trimmed)
    let closePre : List (List Char) := if breakList then [closeListTag listType] else []
    let inL := if breakList then false else inList
    if trimmed = [] then (closePre ++ ["<br />".data], inL, listType, depth)
    else
      match headingAt trimmed with
      | some (lvl, content) =>
        (closePre ++ [headingHtml lvl content], inL, listType, depth)
      | none =>
        if isHrLine trimmed then
          (closePre ++ ["<hr class=\"cn-hr\" />".data], inL, listType, depth)
        else if (match trimmed with | '>' :: _ => true | _ => false) then
          (closePre ++ ["<blockquote class=\"cn-blockquote\">".data
            ++ processInlineMarkdown (blockquoteContent trimmed)
            ++ "</blockquote>".data], inL, listType, depth)
        else
          match ulItemAt trimmed with
          | some content =>
            if !inL || listType ≠ "ul" then
              (closePre ++ (if inL then [closeListTag listType] else [])
                ++ ["<ul class=\"cn-list\">".data] ++ [liHtml content],
               true, "ul", depth)
            else (closePre ++ [liHtml content], true, "ul", depth)
          | none =>
            match olItemAt trimmed with
            | some content =>
              if !inL || listType ≠ "ol" then
                (closePre ++ (if inL then [closeListTag listType] else [])
                  ++ ["<ol class=\"cn-list\">".data] ++ [liHtml content],
                 true, "ol", depth)
              else (closePre ++ [liHtml content], true, "ol", depth)
            | none =>
              if isTokenLine trimmed then
                (closePre ++ [trimmed], inL, listType, depth)
              else (closePre ++ [paragraphHtml trimmed], inL, listType, depth)

/-- The full line loop plus the final open-list closer
(renderer.js lines 251-364). -/
def mdLines (inList : Bool) (listType : String) (depth : Nat) :
    List (List Char) → List (List Char)
  | [] => if inList then [closeListTag listType] else []
  | line :: rest =>
    let r := mdStep inList listType depth line
    r.1 ++ mdLines r.2.1 r.2.2.1 r.2.2.2 rest

/-- The token restore loops (renderer.js lines 369-379): for each stored
block in order, replace the first occurrence of its token. -/
def restoreTokens (kind : List Char) : Nat → List (List Char) → List Char → List Char
  | _, [], t => t
  | i, b :: bs, t => restoreTokens kind (i + 1) bs (replaceFirst (tokenOf kind i) b t)

/-- `renderMarkdown` (renderer.js lines 197-382): fence extraction, inline
code, the four protected-block passes (sharing one index space), the
depth-tracked line pass joined with newlines, then restoration in order:
code blocks, inline code, protected blocks. -/
def renderMarkdown (text : List Char) : List Char :=
  if text = [] then []
  else
    let f := fenceScan 0 text
    let ic := inlineCodeScan 0 f.1
    let p1 := protectScan "style".data 0 ic.1
    let p2 := protectScan "script".data p1.2.length p1.1
    let p3 := protectScan "svg".data (p1.2.length + p2.2.length) p2.1
    let p4 := protectScan "table".data (p1.2.length + p2.2.length + p3.2.length) p3.1
    restoreTokens "HTMLBLOCK".data 0 (p1.2 ++ p2.2 ++ p3.2 ++ p4.2)
      (restoreTokens "INLINECODE".data 0 ic.2
        (restoreTokens "CODEBLOCK".data 0 f.2
          (List.intercalate ['\n'] (mdLines false "" 0 (p4.1.splitOn '\n')))))

/-! ## Embedded HTML documents → iframes (renderer.js lines 69-128) -/

/-- The scrollbar-override CSS injected into each document
(renderer.js line 88). -/
def iframeOverrideCSS : List Char :=
  "<style>html,body\x7boverflow:hidden!important;margin:0;padding:0;\x7dbody\x7bmin-height:auto!important;\x7d</style>".data

/-- Second alternative of the document pattern: `<html[^>]*>[\s\S]*?<\/html>`
(case-insensitive). -/
def docAlt2 (l : List Char) : Option Nat :=
  if startsWithCI "<html".data l then
    let r1 := l.drop 5
    let a := r1.takeWhile (fun x => x != '>')
    if a.length < r1.length then
      let r2 := r1.drop (a.length + 1)
      match findSubCI "</html>".data r2 with
      | some j => some (5 + a.length + 1 + j + 7)
      | none => none
    else none
  else none

/-- Match the document pattern
`(?:<!DOCTYPE\s+html[^>]*>[\s\S]*?<\/html>|<html[^>]*>[\s\S]*?<\/html>)`
(flags `gi`, renderer.js line 85) at the head, first alternative first. -/
def docAt (l : List Char) : Option Nat :=
  if startsWithCI "<!doctype".data l then
    let r1 := l.drop 9
    let ws := r1.takeWhile Char.isWhitespace
    if ws ≠ [] && startsWithCI "html".data (r1.drop ws.length) then
      let r2 := r1.drop (ws.length + 4)
      let a := r2.takeWhile (fun x => x != '>')
      if a.length < r2.length then
        let r3 := r2.drop (a.length + 1)
        match findSubCI "</html>".data r3 with
        | some j => some (9 + ws.length + 4 + a.length + 1 + j + 7)
        | none => docAlt2 l
      else docAlt2 l
    else docAlt2 l
  else docAlt2 l

/-- The `&` then `"` escaping of the srcdoc payload (renderer.js lines
101-103), collapsed to one per-character map. -/
def escSrcdocChar (c : Char) : List Char :=
  if c = '&' then "&amp;".data
  else if c = '"' then "&quot;".data
  else [c]

/-- See `escSrcdocChar`. -/
def escSrcdoc (l : List Char) : List Char := (l.map escSrcdocChar).flatten

/-- The CSS injection (renderer.js lines 92-99): before the first
`</head>`, else before the first `<body`, else prepended. -/
def injectCSS (doc : List Char) : List Char :=
  if (findSub "</head>".data doc).isSome then
    replaceFirst "</head>".data (iframeOverrideCSS ++ "</head>".data) doc
  else if (findSub "<body".data doc).isSome then
    replaceFirst "<body".data (iframeOverrideCSS ++ "<body".data) doc
  else iframeOverrideCSS ++ doc

/-- The sandboxed iframe element built for one matched document
(renderer.js line 105). -/
def iframeFor (doc : List Char) : List Char :=
  "<iframe class=\"cn-regex-iframe\" srcdoc=\"".data
    ++ escSrcdoc (injectCSS doc)
    ++ "\" sandbox=\"allow-scripts allow-same-origin\" frameborder=\"0\" scrolling=\"no\" style=\"width:100%;border:none;overflow:hidden;\"></iframe>".data

/-- The iframe token `\n%%%CN_IFRAME_{i}%%%\n` (renderer.js line 108). -/
def iframeToken (i : Nat) : List Char :=
  "\n%%%CN_IFRAME_".data ++ (toString i).data ++ "%%%\n".data

/-- The document-extraction scan of `convertHtmlDocsToIframes`
(renderer.js lines 90-109). -/
def docScan : Nat → List Char → List Char × List (List Char)
  | _, [] => ([], [])
  | idx, c :: rest =>
    match docAt (c :: rest) with
    | some len =>
      let res := docScan (idx + 1) (rest.drop (len - 1))
      (iframeToken idx ++ res.1, iframeFor ((c :: rest).take len) :: res.2)
    | none =>
      let res := docScan idx rest
      (c :: res.1, res.2)
termination_by _ s => s.length
decreasing_by
  all_goals simp [List.length_drop]
  omega

/-- `convertHtmlDocsToIframes` (renderer.js lines 81-112). -/
def convertHtmlDocsToIframes (text : List Char) : List Char × List (List Char) :=
  if text = [] then (text, []) else docScan 0 text

/-- The optional `<br\s*\/?>` of the restore regex (case-sensitive:
renderer.js line 125 has no `i` flag). -/
def brAt (l : List Char) : Option Nat :=
  if ("<br".data).isPrefixOf l then
    let r := l.drop 3
    let ws := r.takeWhile Char.isWhitespace
    match r.drop ws.length with
    | '/' :: '>' :: _ => some (3 + ws.length + 2)
    | '>' :: _ => some (3 + ws.length + 1)
    | _ => none
  else none

/-- The optional `<p[^>]*>` of the restore regex (note this also matches
`<pre …>`). -/
def pOpenAt (l : List Char) : Option Nat :=
  if ("<p".data).isPrefixOf l then
    let r := l.drop 2
    let a := r.takeWhile (fun x => x != '>')
    if a.length < r.length then some (2 + a.length + 1) else none
  else none

/-- The mandatory token core `%%%CN_IFRAME_(\d+)%%%`. -/
def iframeCoreAt (l : List Char) : Option (Nat × Nat) :=
  if ("%%%CN_IFRAME_".data).isPrefixOf l then
    let r := l.drop 13
    let ds := r.takeWhile Char.isDigit
    if ds ≠ [] && ("%%%".data).isPrefixOf (r.drop ds.length) then
      some (13 + ds.length + 3, digitsVal ds)
    else none
  else none

/-- After the token: `\s*(?:<\/p>)?\s*(?:<br\s*\/?>)?` — greedy and
deterministic because every component is optional. -/
def restoreTrailerLen (l : List Char) : Nat :=
  let ws1 := (l.takeWhile Char.isWhitespace).length
  let l1 := l.drop ws1
  let p := if ("</p>".data).isPrefixOf l1 then 4 else 0
  let l2 := l1.drop p
  let ws2 := (l2.takeWhile Char.isWhitespace).length
  let l3 := l2.drop ws2
  let b := match brAt l3 with | some n => n | none => 0
  ws1 + p + ws2 + b

/-- One candidate of the leading part `(?:<br\s*\/?>)?\s*(?:<p[^>]*>)?\s*`
before the token, with the chosen optionals forced present/absent. -/
def restoreLeadTry (useBr useP : Bool) (l : List Char) : Option (Nat × Nat) := do
  let b ← if useBr then brAt l else some 0
  let l1 := l.drop b
  let ws1 := (l1.takeWhile Char.isWhitespace).length
  let l2 := l1.drop ws1
  let p ← if useP then pOpenAt l2 else some 0
  let l3 := l2.drop p
  let ws2 := (l3.takeWhile Char.isWhitespace).length
  let l4 := l3.drop ws2
  let core ← iframeCoreAt l4
  some (b + ws1 + p + ws2 + core.1, core.2)

/-- The restore-regex match at the head, candidates in regex backtracking
order, plus the trailer. -/
def restoreFullAt (l : List Char) : Option (Nat × Nat) :=
  match restoreLeadTry true true l with
  | some (n, idx) => some (n + restoreTrailerLen (l.drop n), idx)
  | none =>
    match restoreLeadTry true false l with
    | some (n, idx) => some (n + restoreTrailerLen (l.drop n), idx)
    | none =>
      match restoreLeadTry false true l with
      | some (n, idx) => some (n + restoreTrailerLen (l.drop n), idx)
      | none =>
        match restoreLeadTry false false l with
        | some (n, idx) => some (n + restoreTrailerLen (l.drop n), idx)
        | none => none

/-- The global restore scan (renderer.js lines 124-127):
`iframePlaceholders[idx] || match` keeps the matched span when the index is
out of range (or the stored string empty). -/
def restoreScan (phs : List (List Char)) : List Char → List Char
  | [] => []
  | c :: rest =>
    match restoreFullAt (c :: rest) with
    | some (len, idx) =>
      (match phs.get? idx with
       | some ifr => if ifr = [] then (c :: rest).take len else ifr
       | none => (c :: rest).take len)
        ++ restoreScan phs (rest.drop (len - 1))
    | none => c :: restoreScan phs rest
termination_by s => s.length
decreasing_by
  all_goals simp [List.length_drop]
  omega

/-- `restoreIframePlaceholders` (renderer.js lines 121-128). -/
def restoreIframePlaceholders (html : List Char) (phs : List (List Char)) : List Char :=
  if phs = [] then html else restoreScan phs html

/-! ## Extra images and the per-message pipeline -/

/-- `createImageHtml` (src/src/imageHandler.js lines 55-69): the template
literal reproduced verbatim (`\x27` is the apostrophe). -/
def createImageHtml (src alt : List Char) : List Char :=
  "<div class=\"cn-image-container\">\n        <img class=\"cn-image\"\n             src=\"".data
    ++ escapeAttr src
    ++ "\"\n             alt=\"".data ++ escapeAttr alt
    ++ "\"\n             title=\"".data ++ escapeAttr alt
    ++ "\"\n             loading=\"lazy\"\n             data-cn-processed=\"true\"\n             onerror=\"this.onerror=null; this.parentElement.innerHTML=\x27<div class=\\\x27cn-image-fallback\\\x27><span class=\\\x27cn-image-fallback-icon\\\x27>🖼️</span><span>".data
    ++ escapeAttr alt
    ++ "</span></div>\x27\"\n        />\n    </div>".data

/-- `renderExtraImages` (renderer.js lines 439-475): `extra.media[]`
first, then the deprecated `extra.image`, then `extra.image_swipes` with
`media_index ?? last`, then the assembled `cn-extra-images` block. -/
def renderExtraImages (extra : Option Extra) : List Char :=
  match extra with
  | none => []
  | some e =>
    let images1 : List (List Char × List Char) :=
      match e.media with
      | some ms => ms.filterMap (fun m =>
          if m.url ≠ "" ∧ (m.mtype = none ∨ m.mtype = some "" ∨ m.mtype = some "image")
          then some (m.url.data, (m.mtitle.getD "").data)
          else none)
      | none => []
    let images2 :=
      if images1 = [] then
        match e.image with
        | some img => if img ≠ "" then [(img.data, (e.etitle.getD "").data)] else []
        | none => []
      else images1
    let images3 :=
      if images2 = [] then
        match e.image_swipes with
        | some sw =>
          let idx := e.media_index.getD (sw.length - 1)
          let url1 := sw.getD idx ""
          let url := if url1 ≠ "" then url1 else sw.getD (sw.length - 1) ""
          if url ≠ "" then [(url.data, (e.etitle.getD "").data)] else []
        | none => []
      else images2
    if images3 = [] then []
    else
      "<div class=\"cn-extra-images\">".data
        ++ (images3.map (fun p => createImageHtml p.1 p.2)).flatten
        ++ "</div>".data

/-- The per-render context handed to the regex hook
(renderer.js lines 499-504). -/
structure RegexCtx where
  isUser : Bool
  characterName : String
  characterKey : String
  userName : String

/-- The render options bag.  The injected `regexProcessor` may throw,
modelled with `Except String`; `showSenderName` models
`options.showSenderName !== false`. -/
structure RenderOptions where
  userName : String
  characterName : String
  characterKey : String
  dialogueEnabled : Bool
  showSenderName : Bool
  regexProcessor : Option (List Char → RegexCtx → Except String (List Char))

/-- `renderMessage` (renderer.js lines 490-545).  The regex-hook call on
lines 498-505 is not wrapped in any try/catch: an exception from the hook
(`Except.error`) propagates out of `renderMessage` (claim C3). -/
def renderMessage (message : CMsg) (options : RenderOptions) :
    Except String (List Char) := do
  let t1 := substChar (substUser message.mes.data options.userName.data)
    options.characterName.data
  let t2 ← match options.regexProcessor with
    | some f => f t1 ⟨message.is_user, options.characterName,
        options.characterKey, options.userName⟩
    | none => pure t1
  let t4 := removeCursorMarkers (unwrapPreviousInfoBlocks t2)
  let conv := convertHtmlDocsToIframes t4
  let t8 := restoreIframePlaceholders
    (renderMarkdown (processChoices conv.1)) conv.2
  let t9 := styleDialogue t8 options.dialogueEnabled
  let extraImg := renderExtraImages message.extra
  if extraImg ≠ [] then
    if (match message.extra with | some e => e.inline_image | none => false) then
      pure extraImg
    else pure (t9 ++ extraImg)
  else pure t9

/-- Modelled from the spec words for claim C9: the same per-message
pipeline with the dialogue-styling stage omitted (the "markdown-only
render"). -/
def renderMessageNoDialogue (message : CMsg) (options : RenderOptions) :
    Except String (List Char) := do
  let t1 := substChar (substUser message.mes.data options.userName.data)
    options.characterName.data
  let t2 ← match options.regexProcessor with
    | some f => f t1 ⟨message.is_user, options.characterName,
        options.characterKey, options.userName⟩
    | none => pure t1
  let t4 := removeCursorMarkers (unwrapPreviousInfoBlocks t2)
  let conv := convertHtmlDocsToIframes t4
  let t8 := restoreIframePlaceholders
    (renderMarkdown (processChoices conv.1)) conv.2
  let extraImg := renderExtraImages message.extra
  if extraImg ≠ [] then
    if (match message.extra with | some e => e.inline_image | none => false) then
      pure extraImg
    else pure (t8 ++ extraImg)
  else pure t8

/-- The per-message wrapper of `renderChapter`
(renderer.js lines 565-578). -/
def messageWrapper (msg : CMsg) (options : RenderOptions)
    (rendered : List Char) : List Char :=
  "<div class=\"cn-message ".data
    ++ (if msg.is_user then "cn-msg-user".data
        else if msg.is_system then "cn-msg-system".data
        else "cn-msg-character".data)
    ++ "\" data-msg-index=\"".data ++ (toString msg.idx).data ++ "\">".data
    ++ (if (if msg.is_system then "" else msg.name) ≠ "" ∧ ¬ msg.is_system
          ∧ options.showSenderName then
          "<div class=\"cn-msg-sender\">".data ++ escapeHtml msg.name.data
            ++ "</div>".data
        else [])
    ++ "<div class=\"cn-msg-body\">".data ++ rendered ++ "</div>".data
    ++ "</div>".data

/-- The message loop of `renderChapter`: an exception from any message
aborts the whole chapter (no per-message isolation, claim C3). -/
def renderMessagesLoop (options : RenderOptions) :
    List CMsg → Except String (List Char)
  | [] => pure []
  | msg :: rest => do
    let rendered ← renderMessage msg options
    let tail ← renderMessagesLoop options rest
    pure (messageWrapper msg options rendered ++ tail)

/-- `renderChapter` (renderer.js lines 554-582).  `fmtDate` models the
locale-dependent `formatDate` (`toLocaleDateString('ko-KR', …)`), which is
host-dependent and cannot be shallowly embedded. -/
def renderChapter (chapter : Chapter) (options : RenderOptions)
    (fmtDate : Int → String) : Except String (List Char) := do
  let body ← renderMessagesLoop options chapter.messages
  pure (
    "<div class=\"cn-chapter\" data-chapter=\"".data
      ++ (toString chapter.index).data
      ++ "\" id=\"cn-chapter-".data ++ (toString chapter.index).data
      ++ "\">".data
      ++ "<h2 class=\"cn-chapter-title\">".data ++ escapeHtml chapter.title.data
      ++ "</h2>".data
      ++ (if 0 < chapter.startDate then
            "<div class=\"cn-chapter-date\">".data
              ++ (fmtDate chapter.startDate).data ++ "</div>".data
          else [])
      ++ "<div class=\"cn-chapter-content\">".data
      ++ body
      ++ "</div></div>".data)

/-! ## Sidebar search (`src/unnamed/part_006`, `performSearch`) -/

/-- JS `toLowerCase` on a character list. -/
def lowerL (l : List Char) : List Char := l.map Char.toLower

/-- One result entry as pushed by `performSearch` (part_006 line 517). -/
structure SearchEntry where
  chapterIdx : Nat
  msgIdx : Nat
  context : List Char
  chapter : String
deriving Repr, DecidableEq

/-- The highlight replace of `performSearch` (part_006 lines 513-516):
`context.replace(new RegExp(escapeRegex(query), gi), ...)` — `escapeRegex`
makes the query a literal pattern, the g flag replaces every
non-overlapping occurrence left to right, the i flag matches
case-insensitively, and the `$&` in the replacement re-inserts the matched
text with its original case, wrapped in the mark element.  Neither the
context nor the match is HTML-escaped. -/
def highlightAll (query : List Char) : List Char → List Char
  | [] => []
  | c :: rest =>
    if startsWithCI query (c :: rest) ∧ query ≠ [] then
      "<mark class=\"cn-search-highlight\">".data ++ (c :: rest).take query.length
        ++ "</mark>".data ++ highlightAll query (rest.drop (query.length - 1))
    else c :: highlightAll query rest
termination_by s => s.length
decreasing_by
  all_goals simp [List.length_drop]
  omega

/-- The body of the nested `forEach` (part_006 lines 504-518):
`text.toLowerCase().indexOf(lowerQuery)` finds only the FIRST occurrence;
on a hit, the context window is
`text.substring(max(0,pos-30), min(len,pos+query.length+30))` of the RAW
(unescaped) text, with `...` affixes when clipped, then highlighted. -/
def searchHit (query : List Char) (chapterIdx msgIdx : Nat) (chapterTitle : String)
    (text : List Char) : Option SearchEntry :=
  match findSub (lowerL query) (lowerL text) with
  | none => none
  | some pos =>
    let start := pos - 30
    let stop := min text.length (pos + query.length + 30)
    let context0 := (text.drop start).take (stop - start)
    let context1 := if 0 < start then "...".data ++ context0 else context0
    let context2 := if stop < text.length then context1 ++ "...".data else context1
    some ⟨chapterIdx, msgIdx, highlightAll query context2, chapterTitle⟩

/-- The full result list (part_006 lines 500-519): both `forEach` loops in
order, at most one entry per message; `msg.mes || ...` is the raw message
text (the empty string stays empty). -/
def searchResults (chapters : List Chapter) (query : List Char) : List SearchEntry :=
  (chapters.enum.map (fun pc =>
    pc.2.messages.enum.filterMap (fun pm =>
      searchHit query pc.1 pm.1 pc.2.title pm.2.mes.data))).flatten

/-- `performSearch` (part_006 lines 493-552) as the pair (displayed
entries, reported count): an empty or one-character query displays nothing
(`!query or query.length < 2`); otherwise `results.slice(0, 50)` is
rendered while the count line reports the full `results.length`. -/
def performSearch (chapters : List Chapter) (query : String) :
    List SearchEntry × Nat :=
  if query.length < 2 then ([], 0)
  else ((searchResults chapters query.data).take 50,
        (searchResults chapters query.data).length)

/-- Modelled from the words of amended claim C8, NOT from the source: walk
the messages of the chapters in order and emit one entry per message whose
lowercased text contains the lowercased query. -/
def specSearchMsgs (query : List Char) (ci : Nat) (title : String) :
    Nat → List CMsg → List SearchEntry
  | _, [] => []
  | mi, m :: ms =>
    match searchHit query ci mi title m.mes.data with
    | some e => e :: specSearchMsgs query ci title (mi + 1) ms
    | none => specSearchMsgs query ci title (mi + 1) ms

/-- Modelled from the words of amended claim C8, NOT from the source: the
chapter-level walk. -/
def specSearchGo (query : List Char) : Nat → List Chapter → List SearchEntry
  | _, [] => []
  | ci, ch :: rest =>
    specSearchMsgs query ci ch.title 0 ch.messages ++ specSearchGo query (ci + 1) rest

/-! ## Concrete fixtures for the renderer evaluations -/

/-- A complete embedded HTML document wrapped in a triple-backtick code
fence (the failing input of claim C2). -/
def fencedDoc : String := "```\n<!DOCTYPE html><html><body>x</body></html>\n```"

/-- What `renderMessage` actually produces for `fencedDoc`: a live
sandboxed iframe inside the code block. -/
def c2Expected : String := "<pre class=\"cn-code-block\"><code><iframe class=\"cn-regex-iframe\" srcdoc=\"<!DOCTYPE html><html><style>html,body\x7boverflow:hidden!important;margin:0;padding:0;\x7dbody\x7bmin-height:auto!important;\x7d</style><body>x</body></html>\" sandbox=\"allow-scripts allow-same-origin\" frameborder=\"0\" scrolling=\"no\" style=\"width:100%;border:none;overflow:hidden;\"></iframe></code></pre>"

/-- A regex hook that throws on the first message's text (claim C3). -/
def throwingHook : List Char → RegexCtx → Except String (List Char) :=
  fun t _ => if t = "hi".data then Except.error "regex boom" else Except.ok t

/-- A two-message chapter whose first message makes `throwingHook` throw. -/
def c3Chapter : Chapter :=
  { index := 0, title := "Chapter 1",
    messages := [⟨"Alice", false, false, "hi", some 0, 3, none⟩,
                 ⟨"Bob", true, false, "ok", some 0, 4, none⟩],
    startDate := 0, endDate := 0 }

/-- Render options with the throwing hook installed. -/
def c3Options : RenderOptions := ⟨"U", "C", "K", false, true, some throwingHook⟩

/-- The same options with a benign (identity) hook. -/
def c3OptionsBenign : RenderOptions :=
  ⟨"U", "C", "K", false, true, some (fun t _ => Except.ok t)⟩

/-- The chapter HTML produced when the hook does not throw: both messages
are rendered. -/
def c3Expected : String := "<div class=\"cn-chapter\" data-chapter=\"0\" id=\"cn-chapter-0\"><h2 class=\"cn-chapter-title\">Chapter 1</h2><div class=\"cn-chapter-content\"><div class=\"cn-message cn-msg-character\" data-msg-index=\"3\"><div class=\"cn-msg-sender\">Alice</div><div class=\"cn-msg-body\"><p class=\"cn-paragraph\">hi</p></div></div><div class=\"cn-message cn-msg-user\" data-msg-index=\"4\"><div class=\"cn-msg-sender\">Bob</div><div class=\"cn-msg-body\"><p class=\"cn-paragraph\">ok</p></div></div></div></div>"

/-- A one-message chapter whose text contains raw HTML markup around the
search match (the failing input of claim C8). -/
def c8Chapter : Chapter :=
  { index := 0, title := "T",
    messages := [⟨"N", false, false, "<b>ab", some 0, 0, none⟩],
    startDate := 0, endDate := 0 }

/-! ## Chapterizer lemmas -/

theorem byCount_join (count : Nat) (hc : 0 < count) :
    ∀ msgs : List CMsg,
      ((chapterizeByCount msgs count hc).map Chapter.messages).flatten = msgs
  | [] => by simp [chapterizeByCount]
  | m :: rest => by
    rw [chapterizeByCount]
    simp only [List.map_cons, List.flatten_cons]
    rw [byCount_join count hc ((m :: rest).drop count)]
    exact List.take_append_drop count (m :: rest)
termination_by msgs => msgs.length
decreasing_by simp [List.length_drop]; omega

theorem timeGo_join (gapMs : Rat) (msgs : List CMsg) :
    ∀ (prev : Option CMsg) (cur : List CMsg),
      (timeGo gapMs prev cur msgs).flatten = cur ++ msgs := by
  induction msgs with
  | nil =>
    intro prev cur
    by_cases h : cur = [] <;> simp [timeGo, h]
  | cons m rest ih =>
    intro prev cur
    rw [timeGo]
    by_cases h : (gapExceeded gapMs prev m && !cur.isEmpty) = true
    · rw [if_pos h]
      simp only [List.flatten_cons]
      rw [ih]
      simp
    · rw [if_neg h, ih]
      simp

theorem bothGo_join (count : Nat) (gapMs : Rat) (msgs : List CMsg) :
    ∀ (prev : Option CMsg) (cur : List CMsg),
      (bothGo count gapMs prev cur msgs).flatten = cur ++ msgs := by
  induction msgs with
  | nil =>
    intro prev cur
    by_cases h : cur = [] <;> simp [bothGo, h]
  | cons m rest ih =>
    intro prev cur
    rw [bothGo]
    by_cases h : ((gapExceeded gapMs prev m || decide (count ≤ cur.length))
        && !cur.isEmpty) = true
    · rw [if_pos h]
      simp only [List.flatten_cons]
      rw [ih]
      simp
    · rw [if_neg h, ih]
      simp

theorem assignMeta_messages (i : Nat) (ch : Chapter) :
    (assignMeta i ch).messages = ch.messages := by
  cases ch with
  | mk index title messages startDate endDate => cases messages <;> rfl

theorem enumFrom_assign_messages (chs : List Chapter) :
    ∀ n : Nat,
      ((List.enumFrom n chs).map fun p => assignMeta p.1 p.2).map Chapter.messages
        = chs.map Chapter.messages := by
  induction chs with
  | nil => intro n; rfl
  | cons c cs ih =>
    intro n
    simp only [List.enumFrom, List.map_cons, assignMeta_messages]
    rw [ih]

theorem assignTitles_messages (chs : List Chapter) :
    (assignTitles chs).map Chapter.messages = chs.map Chapter.messages := by
  unfold assignTitles List.enum
  exact enumFrom_assign_messages chs 0

theorem byTime_concat (msgs : List CMsg) (gapHours : Rat) :
    chapterConcat (chapterizeByTime msgs gapHours) = msgs := by
  unfold chapterConcat chapterizeByTime
  rw [List.map_map]
  have h : (Chapter.messages ∘ rawChapter) = id := rfl
  rw [h, List.map_id]
  simpa using timeGo_join (timeGapMs gapHours) msgs none []

theorem byBoth_concat (msgs : List CMsg) (count : Nat) (gapHours : Rat) :
    chapterConcat (chapterizeByBoth msgs count gapHours) = msgs := by
  unfold chapterConcat chapterizeByBoth
  rw [List.map_map]
  have h : (Chapter.messages ∘ rawChapter) = id := rfl
  rw [h, List.map_id]
  simpa using bothGo_join count (timeGapMs gapHours) msgs none []

theorem chapterConcat_assignTitles (chs : List Chapter) :
    chapterConcat (assignTitles chs) = chapterConcat chs := by
  unfold chapterConcat
  rw [assignTitles_messages]

/-- C1: for every message list and every chapterization mode (including the
default fallthrough branch), concatenating the messages of the chapters
returned by `chapterize`, in chapter order, yields exactly the input message
list: no message is dropped, duplicated, or reordered. -/
theorem c1_chapter_concat (msgs : List CMsg) (opts : ChapterizeOptions)
    (hc : 0 < opts.messagesPerChapter) :
    chapterConcat (chapterize msgs opts hc) = msgs := by
  cases msgs with
  | nil => rfl
  | cons m rest =>
    rw [chapterize]
    by_cases hnone : opts.mode = "none"
    · rw [if_pos hnone]
      simp [chapterConcat]
    · rw [if_neg hnone, chapterConcat_assignTitles]
      split_ifs with h1 h2 h3
      · unfold chapterConcat
        exact byCount_join _ hc _
      · exact byTime_concat _ _
      · exact byBoth_concat _ _ _
      · unfold chapterConcat
        exact byCount_join _ hc _

/-- Witness for C1: a concrete three-message list in `both` mode. -/
theorem c1_chapter_concat_witness :
    chapterConcat
        (chapterize
          [⟨"A", true, false, "a", some 0, 0, none⟩,
           ⟨"B", false, false, "b", some 3600000, 1, none⟩,
           ⟨"A", true, false, "c", some 28800000, 2, none⟩]
          ⟨"both", 2, 6⟩ (by decide))
      = [⟨"A", true, false, "a", some 0, 0, none⟩,
         ⟨"B", false, false, "b", some 3600000, 1, none⟩,
         ⟨"A", true, false, "c", some 28800000, 2, none⟩] :=
  c1_chapter_concat _ _ (by decide)

theorem byCount_ne_nil (count : Nat) (hc : 0 < count) (m : CMsg)
    (rest : List CMsg) : chapterizeByCount (m :: rest) count hc ≠ [] := by
  rw [chapterizeByCount]
  simp

theorem byCount_sizes (count : Nat) (hc : 0 < count) :
    ∀ msgs : List CMsg, msgs ≠ [] →
      (chapterizeByCount msgs count hc).length = (msgs.length - 1) / count + 1 ∧
      count * ((chapterizeByCount msgs count hc).length - 1) < msgs.length ∧
      (chapterizeByCount msgs count hc).map (fun ch => ch.messages.length)
        = List.replicate ((chapterizeByCount msgs count hc).length - 1) count
            ++ [msgs.length - count * ((chapterizeByCount msgs count hc).length - 1)]
  | [], h => absurd rfl h
  | m :: rest, _ => by
    have hn : (m :: rest).length = rest.length + 1 := rfl
    rw [chapterizeByCount]
    by_cases hle : (m :: rest).length ≤ count
    · have hdrop : (m :: rest).drop count = [] := List.drop_eq_nil_iff.mpr hle
      rw [hdrop, chapterizeByCount]
      have h0 : ((m :: rest).length - 1) / count = 0 := Nat.div_eq_of_lt (by omega)
      have hmin : min count (m :: rest).length = (m :: rest).length :=
        Nat.min_eq_right hle
      refine ⟨?_, by simp, ?_⟩
      · show 1 = ((m :: rest).length - 1) / count + 1
        rw [h0]
      · show [((m :: rest).take count).length]
          = List.replicate (1 - 1) count ++ [(m :: rest).length - count * (1 - 1)]
        rw [List.length_take, hmin]
        simp
    · push_neg at hle
      have hdropne : (m :: rest).drop count ≠ [] := by
        intro hcon
        rw [List.drop_eq_nil_iff] at hcon
        omega
      obtain ⟨ihlen, ihlt, ihmap⟩ :=
        byCount_sizes count hc ((m :: rest).drop count) hdropne
      have hdl : ((m :: rest).drop count).length = (m :: rest).length - count :=
        List.length_drop count (m :: rest)
      set L := (chapterizeByCount ((m :: rest).drop count) count hc).length with hL
      have hLpos : 0 < L := by
        cases hd : (m :: rest).drop count with
        | nil => exact absurd hd hdropne
        | cons x xs =>
          rw [hL, hd]
          exact List.length_pos.mpr (byCount_ne_nil count hc x xs)
      rw [hdl] at ihlen ihlt ihmap
      have hL1 : L = (L - 1) + 1 := by omega
      have hmul : count * L = count * (L - 1) + count := by
        conv_lhs => rw [hL1]
        rw [Nat.mul_succ]
      refine ⟨?_, ?_, ?_⟩
      · show L + 1 = ((m :: rest).length - 1) / count + 1
        have harith : (m :: rest).length - 1 = ((m :: rest).length - count - 1) + count := by
          omega
        rw [harith, Nat.add_div_right _ hc]
        omega
      · show count * (L + 1 - 1) < (m :: rest).length
        have hE : L + 1 - 1 = L := rfl
        rw [hE]
        omega
      · show ((m :: rest).take count).length ::
            (chapterizeByCount ((m :: rest).drop count) count hc).map
              (fun ch => ch.messages.length)
          = List.replicate (L + 1 - 1) count
              ++ [(m :: rest).length - count * (L + 1 - 1)]
        have hE : L + 1 - 1 = L := rfl
        rw [hE, List.length_take, Nat.min_eq_left (le_of_lt hle), ihmap]
        conv_rhs => rw [hL1]
        rw [List.replicate_succ, List.cons_append]
        have hlast : (m :: rest).length - count - count * (L - 1)
            = (m :: rest).length - count * ((L - 1) + 1) := by
          rw [← hL1, hmul]
          omega
        rw [hlast]
termination_by msgs => msgs.length
decreasing_by simp [List.length_drop]; omega

theorem assignTitles_length (chs : List Chapter) :
    (assignTitles chs).length = chs.length := by
  have h := congrArg List.length (assignTitles_messages chs)
  simpa using h

theorem assignTitles_sizes (chs : List Chapter) :
    (assignTitles chs).map (fun ch => ch.messages.length)
      = chs.map (fun ch => ch.messages.length) := by
  have h := congrArg (List.map List.length) (assignTitles_messages chs)
  simpa [List.map_map, Function.comp] using h

/-- C4: in `count` mode with `k ≥ 1` messages per chapter and a non-empty
input of `n` messages, `chapterize` returns exactly `⌈n / k⌉ = (n + k - 1) / k`
chapters whose sizes are `k, k, …, k, n - k * (⌈n / k⌉ - 1)`: every chapter
has exactly `k` messages except possibly the last, which has the remainder. -/
theorem c4_count_mode_sizes (msgs : List CMsg) (k : Nat) (g : Rat)
    (hk : 0 < k) (hne : msgs ≠ []) :
    (chapterize msgs ⟨"count", k, g⟩ hk).length = (msgs.length + k - 1) / k ∧
    (chapterize msgs ⟨"count", k, g⟩ hk).map (fun ch => ch.messages.length)
      = List.replicate ((chapterize msgs ⟨"count", k, g⟩ hk).length - 1) k
          ++ [msgs.length - k * ((chapterize msgs ⟨"count", k, g⟩ hk).length - 1)] := by
  cases msgs with
  | nil => exact absurd rfl hne
  | cons m rest =>
    have hred : chapterize (m :: rest) ⟨"count", k, g⟩ hk
        = assignTitles (chapterizeByCount (m :: rest) k hk) := rfl
    rw [hred]
    obtain ⟨hlen, _hlt, hmap⟩ := byCount_sizes k hk (m :: rest) (by simp)
    have hceil : ((m :: rest).length + k - 1) / k = ((m :: rest).length - 1) / k + 1 := by
      have h1 : (m :: rest).length + k - 1 = ((m :: rest).length - 1) + k := by
        have hpos : 0 < (m :: rest).length := List.length_pos.mpr (List.cons_ne_nil m rest)
        omega
      rw [h1, Nat.add_div_right _ hk]
    constructor
    · rw [assignTitles_length, hlen, hceil]
    · rw [assignTitles_sizes, assignTitles_length, hmap]

/-- Witness for C4: seven messages, four per chapter, gives chapters of
sizes 4 and 3. -/
theorem c4_count_mode_sizes_witness :
    (chapterize
        [⟨"A", true, false, "1", some 0, 0, none⟩, ⟨"A", true, false, "2", some 0, 1, none⟩,
         ⟨"A", true, false, "3", some 0, 2, none⟩, ⟨"A", true, false, "4", some 0, 3, none⟩,
         ⟨"A", true, false, "5", some 0, 4, none⟩, ⟨"A", true, false, "6", some 0, 5, none⟩,
         ⟨"A", true, false, "7", some 0, 6, none⟩]
        ⟨"count", 4, 6⟩ (by decide)).length = 2 ∧
    (chapterize
        [⟨"A", true, false, "1", some 0, 0, none⟩, ⟨"A", true, false, "2", some 0, 1, none⟩,
         ⟨"A", true, false, "3", some 0, 2, none⟩, ⟨"A", true, false, "4", some 0, 3, none⟩,
         ⟨"A", true, false, "5", some 0, 4, none⟩, ⟨"A", true, false, "6", some 0, 5, none⟩,
         ⟨"A", true, false, "7", some 0, 6, none⟩]
        ⟨"count", 4, 6⟩ (by decide)).map (fun ch => ch.messages.length) = [4, 3] := by
  have h := c4_count_mode_sizes
    [⟨"A", true, false, "1", some 0, 0, none⟩, ⟨"A", true, false, "2", some 0, 1, none⟩,
     ⟨"A", true, false, "3", some 0, 2, none⟩, ⟨"A", true, false, "4", some 0, 3, none⟩,
     ⟨"A", true, false, "5", some 0, 4, none⟩, ⟨"A", true, false, "6", some 0, 5, none⟩,
     ⟨"A", true, false, "7", some 0, 6, none⟩] 4 6 (by decide) (by decide)
  obtain ⟨h1, h2⟩ := h
  refine ⟨by rw [h1]; rfl, ?_⟩
  rw [h2, h1]
  rfl

theorem timeGo_eq_spec (gapMs : Rat) :
    ∀ (msgs : List CMsg) (p : CMsg) (cur : List CMsg), cur ≠ [] →
      timeGo gapMs (some p) cur msgs = specSplitGapGo gapMs p cur msgs := by
  intro msgs
  induction msgs with
  | nil =>
    intro p cur h
    rw [timeGo, specSplitGapGo, if_neg h]
  | cons m rest ih =>
    intro p cur h
    rw [timeGo, specSplitGapGo]
    have hne : (!cur.isEmpty) = true := by
      cases cur with
      | nil => exact absurd rfl h
      | cons a l => rfl
    by_cases hgap : ((timeOf m - timeOf p : Int) : Rat) > gapMs
    · have hg : gapExceeded gapMs (some p) m = true := by
        unfold gapExceeded
        exact decide_eq_true hgap
      have hcond : (gapExceeded gapMs (some p) m && !cur.isEmpty) = true := by
        rw [hg, hne]
        rfl
      rw [if_pos hcond, if_pos hgap, ih m [m] (by simp)]
    · have hg : gapExceeded gapMs (some p) m = false := by
        unfold gapExceeded
        exact decide_eq_false hgap
      have hcond : (gapExceeded gapMs (some p) m && !cur.isEmpty) = false := by
        rw [hg]
        rfl
      rw [hcond]
      simp only [Bool.false_eq_true, if_false, if_neg hgap]
      exact ih m (cur ++ [m]) (by simp)

/-- C5: the `time`-mode chapterizer places a boundary immediately before a
message exactly when that message's parsed time minus the previous message's
parsed time strictly exceeds `timeGapHours` in milliseconds, and the first
message never creates a boundary (the code function equals the
spec-worded splitter); in particular three messages at `T`, `T+1h`, `T+8h`
with a 6-hour threshold yield the two chapters `[T, T+1h]` and `[T+8h]`. -/
theorem c5_time_mode_boundary :
    (∀ (msgs : List CMsg) (gapHours : Rat),
      (chapterizeByTime msgs gapHours).map Chapter.messages
        = specSplitByGap (timeGapMs gapHours) msgs) ∧
    chapterize
        [⟨"A", true, false, "a", some 0, 0, none⟩,
         ⟨"B", false, false, "b", some 3600000, 1, none⟩,
         ⟨"A", true, false, "c", some 28800000, 2, none⟩]
        ⟨"time", 20, 6⟩ (by decide)
      = [⟨0, "Chapter 1",
           [⟨"A", true, false, "a", some 0, 0, none⟩,
            ⟨"B", false, false, "b", some 3600000, 1, none⟩], 0, 3600000⟩,
         ⟨1, "Chapter 2",
           [⟨"A", true, false, "c", some 28800000, 2, none⟩], 28800000, 28800000⟩] := by
  constructor
  · intro msgs gapHours
    unfold chapterizeByTime
    rw [List.map_map]
    have h : (Chapter.messages ∘ rawChapter) = id := rfl
    rw [h, List.map_id]
    cases msgs with
    | nil => rfl
    | cons m rest =>
      rw [timeGo, specSplitByGap]
      have hcond : (gapExceeded (timeGapMs gapHours) none m
          && !List.isEmpty ([] : List CMsg)) = false := by
        rfl
      rw [hcond]
      simp only [Bool.false_eq_true, if_false, List.nil_append]
      exact timeGo_eq_spec (timeGapMs gapHours) rest m [m] (by simp)
  · norm_num [chapterize, chapterizeByTime, timeGo, gapExceeded, timeGapMs,
      rawChapter, assignTitles, assignMeta, timeOf, List.enum, List.enumFrom,
      List.getLastD]
    rfl

/-- C10: the `chapterizeByCount` loop index (`for (i = 0; …; i += count)`)
strictly advances each iteration when `count ≥ 1` and, starting from 0,
reaches the loop bound `msgs.length` after `msgs.length` iterations, so the
loop terminates; with `count = 0` the index never advances, the guard
`i < msgs.length` holds after every number of iterations on a non-empty
input, and the loop never terminates. -/
theorem c10_count_loop (msgs : List CMsg) (k : Nat) (hk : 1 ≤ k) :
    (∀ s, countLoopIndex k s < countLoopIndex k (s + 1)) ∧
    msgs.length ≤ countLoopIndex k msgs.length ∧
    (msgs ≠ [] → ∀ s, countLoopIndex 0 s < msgs.length) := by
  have heq : ∀ (c s : Nat), countLoopIndex c s = c * s := by
    intro c s
    induction s with
    | zero => rfl
    | succ n ih => rw [countLoopIndex, ih, Nat.mul_succ]
  refine ⟨?_, ?_, ?_⟩
  · intro s
    rw [heq, heq, Nat.mul_succ]
    omega
  · rw [heq]
    nlinarith
  · intro hne s
    rw [heq, Nat.zero_mul]
    exact List.length_pos.mpr hne

/-- Witness for C10 at `k = 3` and a concrete singleton message list. -/
theorem c10_count_loop_witness :
    countLoopIndex 3 0 < countLoopIndex 3 1 ∧
    ([⟨"A", true, false, "a", some 0, 0, none⟩] : List CMsg).length ≤ countLoopIndex 3 1 ∧
    countLoopIndex 0 7 < ([⟨"A", true, false, "a", some 0, 0, none⟩] : List CMsg).length :=
  ⟨(c10_count_loop [⟨"A", true, false, "a", some 0, 0, none⟩] 3 (by decide)).1 0,
   (c10_count_loop [⟨"A", true, false, "a", some 0, 0, none⟩] 3 (by decide)).2.1,
   (c10_count_loop [⟨"A", true, false, "a", some 0, 0, none⟩] 3 (by decide)).2.2 (by decide) 7⟩

/-- Counterexample to C6: the claim says every numeric timestamp of
magnitude below `10^12` is interpreted as epoch seconds (scaled by 1000),
but parser.js line 46 returns `new Date(sendDate)` for every number-typed
input: the number `5000` is interpreted as 5000 epoch *milliseconds*, not
`5000 * 1000`.  The seconds heuristic only runs for all-digit strings. -/
theorem c6_numeric_seconds_refuted :
    normalizeSendDate parseStdNone (SendDate.num 5000) = JDate.epochMs 5000 ∧
    JDate.epochMs 5000 ≠ JDate.epochMs (5000 * 1000) :=
  ⟨rfl, by decide⟩

/-- C6 (amended): `normalizeSendDate` is pure; a falsy input gives epoch
zero; a number-typed input is always interpreted as epoch milliseconds
(regardless of magnitude); an all-digit string of value below `10^12` is
interpreted as epoch seconds and scaled by 1000, and as milliseconds
otherwise; any other string tries the standard parser, then the custom
`YYYY-MM-DD@HHhMMmSSs` format, and falls back to epoch zero. -/
theorem c6_normalize_branches (parseStd : String → Option Int) :
    (normalizeSendDate parseStd (.num 0) = .epochMs 0 ∧
     normalizeSendDate parseStd (.str "") = .epochMs 0) ∧
    (∀ n : Int, n ≠ 0 → normalizeSendDate parseStd (.num n) = .epochMs n) ∧
    (∀ s : String, s ≠ "" → isDigitString (jsTrim s) = true →
      ((digitsToNat (jsTrim s) : Int) < 10 ^ 12 →
        normalizeSendDate parseStd (.str s) = .epochMs (digitsToNat (jsTrim s) * 1000)) ∧
      (¬ ((digitsToNat (jsTrim s) : Int) < 10 ^ 12) →
        normalizeSendDate parseStd (.str s) = .epochMs (digitsToNat (jsTrim s)))) ∧
    (∀ (s : String) (t : Int), s ≠ "" → isDigitString (jsTrim s) = false →
      parseStd s = some t →
      normalizeSendDate parseStd (.str s) = .epochMs t) ∧
    (∀ (s : String) (y mo d hh mi ss : Nat), s ≠ "" →
      isDigitString (jsTrim s) = false → parseStd s = none →
      customFormatFind s.data = some (y, mo, d, hh, mi, ss) →
      normalizeSendDate parseStd (.str s) = .localDate y (mo - 1) d hh mi ss) ∧
    (∀ s : String, isDigitString (jsTrim s) = false → parseStd s = none →
      customFormatFind s.data = none →
      normalizeSendDate parseStd (.str s) = .epochMs 0) := by
  refine ⟨⟨rfl, rfl⟩, ?_, ?_, ?_, ?_, ?_⟩
  · intro n hn
    have hf : isFalsy (SendDate.num n) = false := by
      simp [isFalsy, hn]
    rw [normalizeSendDate, hf]
    rfl
  · intro s hs hdig
    have hf : isFalsy (SendDate.str s) = false := by
      simp [isFalsy, hs]
    constructor
    · intro hlt
      rw [normalizeSendDate, hf]
      simp only [Bool.false_eq_true, if_false, hdig, if_pos, if_true]
      rw [if_pos hlt]
    · intro hge
      rw [normalizeSendDate, hf]
      simp only [Bool.false_eq_true, if_false, hdig, if_pos, if_true]
      rw [if_neg hge]
  · intro s t hs hdig hstd
    have hf : isFalsy (SendDate.str s) = false := by
      simp [isFalsy, hs]
    rw [normalizeSendDate, hf]
    simp only [Bool.false_eq_true, if_false, hdig]
    rw [hstd]
  · intro s y mo d hh mi ss hs hdig hstd hcustom
    have hf : isFalsy (SendDate.str s) = false := by
      simp [isFalsy, hs]
    rw [normalizeSendDate, hf]
    simp only [Bool.false_eq_true, if_false, hdig]
    rw [hstd, hcustom]
  · intro s hdig hstd hcustom
    by_cases hs : s = ""
    · rw [hs]
      rfl
    · have hf : isFalsy (SendDate.str s) = false := by
        simp [isFalsy, hs]
      rw [normalizeSendDate, hf]
      simp only [Bool.false_eq_true, if_false, hdig]
      rw [hstd, hcustom]

/-- Witness for C6 (amended): the all-digit string `"5000"` is scaled to
seconds, and the custom-format string parses into the local-date
constructor. -/
theorem c6_normalize_branches_witness :
    normalizeSendDate parseStdNone (.str "5000")
      = .epochMs (digitsToNat (jsTrim "5000") * 1000) ∧
    normalizeSendDate parseStdNone (.str "2025-10-17@10h16m24s")
      = .localDate 2025 (10 - 1) 17 10 16 24 :=
  ⟨((c6_normalize_branches parseStdNone).2.2.1 "5000" (by decide) (by decide)).1
      (by decide),
   (c6_normalize_branches parseStdNone).2.2.2.2.1 "2025-10-17@10h16m24s"
      2025 10 17 10 16 24 (by decide) (by decide) rfl (by decide)⟩

/-! ## Dialogue styler lemmas -/

theorem takeWhile_append_stop {p : Char → Bool} :
    ∀ (t rest : List Char), (∀ c ∈ t, p c = true) →
      (rest = [] ∨ ∃ d r, rest = d :: r ∧ p d = false) →
      (t ++ rest).takeWhile p = t ∧ (t ++ rest).dropWhile p = rest := by
  intro t
  induction t with
  | nil =>
    intro rest _ hr
    rcases hr with hr | ⟨d, r, hdr, hd⟩
    · subst hr
      exact ⟨rfl, rfl⟩
    · subst hdr
      constructor
      · simp [List.takeWhile_cons, hd]
      · simp [List.dropWhile_cons, hd]
  | cons c t' ih =>
    intro rest hall hr
    have hc : p c = true := hall c (by simp)
    have ht' : ∀ x ∈ t', p x = true := fun x hx => hall x (by simp [hx])
    obtain ⟨h1, h2⟩ := ih rest ht' hr
    constructor
    · simp only [List.cons_append, List.takeWhile_cons, hc, if_true, h1]
    · simp only [List.cons_append, List.dropWhile_cons, hc, if_true, h2]

theorem wrapPairs_count_lt_two :
    ∀ t : List Char, t.count '"' < 2 → wrapPairs t = t
  | [], _ => by rw [wrapPairs]
  | c :: rest, h => by
    rw [wrapPairs]
    by_cases hc : c = '"'
    · subst hc
      have hcnt : rest.count '"' = 0 := by
        rw [List.count_cons_self] at h
        omega
      have hnot : ∀ x ∈ rest, (x != '"') = true := by
        intro x hx
        have : x ≠ '"' := by
          intro hxq
          subst hxq
          rw [List.count_eq_zero] at hcnt
          exact hcnt hx
        simpa using this
      have htw : rest.takeWhile (fun x => x != '"') = rest := by
        have := takeWhile_append_stop (p := fun x => x != '"') rest []
          hnot (Or.inl rfl)
        simpa using this.1
      rw [if_neg]
      · rw [wrapPairs_count_lt_two rest (by omega)]
      · rw [htw]
        intro hcon
        exact absurd hcon.2.2 (by omega)
    · rw [if_neg]
      · have hcnt : rest.count '"' < 2 := by
          rw [List.count_cons_of_ne (Ne.symm hc)] at h
          omega
        rw [wrapPairs_count_lt_two rest hcnt]
      · intro hcon
        exact hc hcon.1

theorem styleGo_head_lt (b b' : Bool) (s : List Char)
    (h : s = [] ∨ ∃ r, s = '<' :: r) : styleGo b s = styleGo b' s := by
  rcases h with h | ⟨r, h⟩ <;> subst h
  · simp [styleGo]
  · rw [styleGo, styleGo]
    simp

theorem styleGo_mid (mid : List Char) (hmid : ∀ c ∈ mid, c ≠ '<' ∧ c ≠ '>') :
    ∀ rest : List Char,
      styleGo false (mid ++ ('>' :: rest)) = mid ++ ('>' :: styleGo true rest) := by
  induction mid with
  | nil =>
    intro rest
    rw [List.nil_append, styleGo]
    simp
  | cons c mid' ih =>
    intro rest
    have hc : c ≠ '<' ∧ c ≠ '>' := hmid c (by simp)
    have hmid' : ∀ x ∈ mid', x ≠ '<' ∧ x ≠ '>' := fun x hx => hmid x (by simp [hx])
    rw [List.cons_append, styleGo, if_neg hc.1]
    have hgt : (c == '>') = false := by simpa using hc.2
    simp only [Bool.false_and, Bool.false_eq_true, if_false, hgt]
    rw [ih hmid']
    rfl

theorem styleGo_tag (mid : List Char) (hmid : ∀ c ∈ mid, c ≠ '<' ∧ c ≠ '>')
    (rest : List Char) (b : Bool) :
    styleGo b (('<' :: (mid ++ ['>'])) ++ rest)
      = ('<' :: (mid ++ ['>'])) ++ styleGo true rest := by
  have hassoc : ('<' :: (mid ++ ['>'])) ++ rest = '<' :: (mid ++ ('>' :: rest)) := by
    simp
  rw [hassoc, styleGo]
  simp only [if_pos rfl]
  rw [styleGo_mid mid hmid rest]
  simp

theorem styleGo_text_low (t : List Char) :
    (∀ c ∈ t, c ≠ '<') → t.count '"' < 2 →
    ∀ (rest : List Char) (b : Bool), (rest = [] ∨ ∃ r, rest = '<' :: r) →
      styleGo b (t ++ rest) = t ++ styleGo true rest := by
  induction t with
  | nil =>
    intro _ _ rest b hr
    rw [List.nil_append, List.nil_append]
    exact styleGo_head_lt b true rest hr
  | cons c t' ih =>
    intro ht hcnt rest b hr
    have hc : c ≠ '<' := ht c (by simp)
    have ht' : ∀ x ∈ t', x ≠ '<' := fun x hx => ht x (by simp [hx])
    have hstop : rest = [] ∨ ∃ d r, rest = d :: r ∧ (d != '<') = false := by
      rcases hr with hr | ⟨r, hr⟩
      · exact Or.inl hr
      · exact Or.inr ⟨'<', r, hr, by simp⟩
    have htw : (t' ++ rest).takeWhile (fun x => x != '<') = t' :=
      (takeWhile_append_stop t' rest (fun x hx => by simpa using ht' x hx) hstop).1
    have hrun : (c :: (t' ++ rest).takeWhile (fun x => x != '<')).count '"' < 2 := by
      rw [htw]
      exact hcnt
    rw [List.cons_append, styleGo, if_neg hc]
    have hcond : (b && decide
        (2 ≤ (c :: (t' ++ rest).takeWhile (fun x => x != '<')).count '"')) = false := by
      have : decide
          (2 ≤ (c :: (t' ++ rest).takeWhile (fun x => x != '<')).count '"') = false :=
        decide_eq_false (by omega)
      rw [this, Bool.and_false]
    rw [hcond]
    simp only [Bool.false_eq_true, if_false]
    have hcnt' : t'.count '"' < 2 := by
      by_cases hq : c = '"'
      · subst hq
        rw [List.count_cons_self] at hcnt
        omega
      · rw [List.count_cons_of_ne (Ne.symm hq)] at hcnt
        omega
    rw [ih ht' hcnt' rest (c == '>') hr]
    rfl

theorem styleGo_text_hi (t : List Char) (ht : ∀ c ∈ t, c ≠ '<')
    (hcnt : 2 ≤ t.count '"') (rest : List Char)
    (hr : rest = [] ∨ ∃ r, rest = '<' :: r) :
    styleGo true (t ++ rest) = wrapPairs t ++ styleGo true rest := by
  cases t with
  | nil => simp at hcnt
  | cons c t' =>
    have hc : c ≠ '<' := ht c (by simp)
    have ht' : ∀ x ∈ t', x ≠ '<' := fun x hx => ht x (by simp [hx])
    have hstop : rest = [] ∨ ∃ d r, rest = d :: r ∧ (d != '<') = false := by
      rcases hr with h | ⟨r, h⟩
      · exact Or.inl h
      · exact Or.inr ⟨'<', r, h, by simp⟩
    obtain ⟨htw, hdw⟩ :=
      takeWhile_append_stop t' rest (fun x hx => by simpa using ht' x hx) hstop
    rw [List.cons_append, styleGo, if_neg hc]
    have hcond : (true && decide
        (2 ≤ (c :: (t' ++ rest).takeWhile (fun x => x != '<')).count '"')) = true := by
      rw [htw, Bool.true_and]
      exact decide_eq_true hcnt
    rw [hcond]
    simp only [if_true]
    rw [htw, hdw]
    rw [styleGo_head_lt false true rest hr]

theorem noAdjacentTexts_tail (p : Piece) (ps : List Piece)
    (h : noAdjacentTexts (p :: ps)) : noAdjacentTexts ps := by
  cases p with
  | tag s => exact h
  | text s =>
    cases ps with
    | nil => trivial
    | cons q qs =>
      cases q with
      | tag s' => exact h
      | text s' => exact absurd h (by simp [noAdjacentTexts])

theorem renderPieces_nil_of_styled (ps : List Piece)
    (hok : ∀ p ∈ ps, pieceOK p) (h : renderPieces ps = []) :
    renderPieces (ps.map stylePiece) = [] := by
  induction ps with
  | nil => rfl
  | cons p ps' ih =>
    rw [renderPieces] at h
    have hval : pieceVal p = [] ∧ renderPieces ps' = [] := List.append_eq_nil.mp h
    cases p with
    | tag s =>
      obtain ⟨mid, hs, _⟩ := hok (.tag s) (by simp)
      rw [pieceVal] at hval
      rw [hs] at hval
      exact absurd hval.1 (by simp)
    | text t =>
      rw [pieceVal] at hval
      rw [List.map_cons, renderPieces]
      have ht : t = [] := hval.1
      subst ht
      rw [stylePiece]
      simp only [pieceVal, wrapPairs]
      exact ih (fun q hq => hok q (by simp [hq])) hval.2

theorem styleGo_pieces :
    ∀ ps : List Piece, (∀ p ∈ ps, pieceOK p) → noAdjacentTexts ps →
      styleGo true (renderPieces ps) = renderPieces (ps.map stylePiece) := by
  intro ps
  induction ps with
  | nil => intro _ _; simp [styleGo, renderPieces]
  | cons p ps' ih =>
    intro hok hadj
    have hok' : ∀ q ∈ ps', pieceOK q := fun q hq => hok q (by simp [hq])
    have hadj' : noAdjacentTexts ps' := noAdjacentTexts_tail p ps' hadj
    cases p with
    | tag s =>
      obtain ⟨mid, hs, hmid⟩ := hok (.tag s) (by simp)
      have hmid' : ∀ c ∈ mid, c ≠ '<' ∧ c ≠ '>' := by
        intro c hcm
        have := List.all_eq_true.mp hmid c hcm
        constructor
        · intro hcon; subst hcon; simp at this
        · intro hcon; subst hcon; simp at this
      subst hs
      rw [renderPieces, pieceVal, List.map_cons, stylePiece, renderPieces, pieceVal]
      rw [styleGo_tag mid hmid' (renderPieces ps') true]
      rw [ih hok' hadj']
    | text t =>
      have ht : ∀ c ∈ t, c ≠ '<' := by
        intro c hcm
        have hall := hok (.text t) (by simp)
        rw [pieceOK] at hall
        have := List.all_eq_true.mp hall c hcm
        intro hcon
        subst hcon
        simp at this
      have hr : renderPieces ps' = [] ∨ ∃ r, renderPieces ps' = '<' :: r := by
        cases ps' with
        | nil => exact Or.inl rfl
        | cons q qs =>
          cases q with
          | tag s' =>
            obtain ⟨mid, hs', _⟩ := hok' (.tag s') (by simp)
            refine Or.inr ⟨mid ++ ['>'] ++ renderPieces qs, ?_⟩
            rw [renderPieces, pieceVal, hs']
            simp
          | text t' => exact absurd hadj (by simp [noAdjacentTexts])
      rw [renderPieces, pieceVal, List.map_cons, stylePiece, renderPieces, pieceVal]
      by_cases hcnt : 2 ≤ t.count '"'
      · rw [styleGo_text_hi t ht hcnt (renderPieces ps') hr]
        rw [ih hok' hadj']
      · push_neg at hcnt
        rw [styleGo_text_low t ht hcnt (renderPieces ps') true hr]
        rw [wrapPairs_count_lt_two t hcnt]
        rw [ih hok' hadj']

/-- Counterexample to C7: the configured-bracket-set part of the claim fails
on the code.  `styleDialogue` (renderer.js lines 418-427) only recognises
straight double quotes; a run quoted with CJK corner brackets `「…」` is
returned unchanged and no dialogue span is inserted, although the claim
requires it to be wrapped exactly once. -/
theorem c7_bracket_set_refuted :
    styleDialogue "「hi」".data true = "「hi」".data ∧
    hasSub "cn-dialogue".data (styleDialogue "「hi」".data true) = false := by
  have hlow := styleGo_text_low "「hi」".data (by decide) (by decide) [] true
    (Or.inl rfl)
  rw [List.append_nil] at hlow
  have hid : styleDialogue "「hi」".data true = "「hi」".data := by
    rw [styleDialogue]
    simp only [Bool.not_true, Bool.false_or]
    rw [if_neg (by simp)]
    rw [hlow]
    simp [styleGo]
  refine ⟨hid, ?_⟩
  rw [hid]
  decide

/-- C7 (amended): with dialogue styling enabled, on HTML made of well-formed
tags (no `<`/`>` in a tag interior) and text runs (no `<`), with no two
adjacent text runs, `styleDialogue` equals the per-piece map that wraps each
straight-double-quote pair of every text run in one dialogue span
(`wrapPairs`, a single non-rescanning pass, so no nested double-wrapping)
and leaves every tag — including quote characters inside attribute values —
untouched.  Bracket pairs other than straight double quotes are not styled
(see the counterexample). -/
theorem c7_double_quote_wrapping (ps : List Piece)
    (hok : ∀ p ∈ ps, pieceOK p) (hadj : noAdjacentTexts ps) :
    styleDialogue (renderPieces ps) true = renderPieces (ps.map stylePiece) := by
  unfold styleDialogue
  by_cases hemp : renderPieces ps = []
  · rw [hemp]
    simp only [List.isEmpty_nil, Bool.not_true, Bool.false_or, if_true]
    exact (renderPieces_nil_of_styled ps hok hemp).symm
  · have hne : (renderPieces ps).isEmpty = false := by
      cases h : renderPieces ps with
      | nil => exact absurd h hemp
      | cons a l => rfl
    rw [hne]
    simp only [Bool.not_true, Bool.false_or, Bool.false_eq_true, if_false]
    exact styleGo_pieces ps hok hadj

/-- Witness for C7 (amended): a text run with one quoted span, a tag with a
quoted attribute value, and a trailing text run with corner brackets. -/
theorem c7_double_quote_wrapping_witness :
    styleDialogue (renderPieces
        [Piece.text "He said \"hi\" now".data,
         Piece.tag "<p class=\"cn-x\">".data,
         Piece.text "「x」 ok".data]) true
      = renderPieces
        [Piece.text ("He said ".data ++ spanOpen ++ "\"hi\"".data
            ++ spanClose ++ " now".data),
         Piece.tag "<p class=\"cn-x\">".data,
         Piece.text "「x」 ok".data] := by
  have h := c7_double_quote_wrapping
    [Piece.text "He said \"hi\" now".data,
     Piece.tag "<p class=\"cn-x\">".data,
     Piece.text "「x」 ok".data]
    (by
      intro p hp
      simp only [List.mem_cons, List.not_mem_nil, or_false] at hp
      rcases hp with hp | hp | hp <;> subst hp
      · simp [pieceOK]
      · exact ⟨"p class=\"cn-x\"".data, by simp, by simp⟩
      · simp [pieceOK])
    (by simp [noAdjacentTexts])
  rw [h]
  simp only [List.map_cons, List.map_nil, stylePiece]
  simp +decide [renderPieces, pieceVal, wrapPairs, spanOpen, spanClose]

set_option maxRecDepth 8000

set_option maxHeartbeats 4000000

/-- C2 fails on the code (code bug): in `renderMessage`,
`convertHtmlDocsToIframes` (step 4) runs on the raw text BEFORE
`renderMarkdown` extracts code fences (step 6), contradicting the comment
on renderer.js line 515 ("Code fences protect OLD DOCTYPEs; only CURRENT
ones (outside three backticks) are converted") and the claim.  On the
fenced document `fencedDoc`: (1) an iframe is created from inside the
fence; (2) had fences been extracted first, as the claim asserts, no
iframe would exist; (3) the final rendered message contains a live
sandboxed `<iframe>`, not only escaped code-block text. -/
theorem c2_fenced_doc_becomes_iframe :
    (convertHtmlDocsToIframes fencedDoc.data).2.length = 1 ∧
    (convertHtmlDocsToIframes (fenceScan 0 fencedDoc.data).1).2 = [] ∧
    renderMessage ⟨"A", false, false, fencedDoc, some 0, 0, none⟩
        ⟨"U", "C", "K", false, true, none⟩ = .ok c2Expected.data ∧
    hasSub "<iframe".data c2Expected.data = true := by
  refine ⟨?_, ?_, ?_, by decide⟩
  · simp +decide [convertHtmlDocsToIframes, docScan, docAt, docAlt2, findSubCI,
      startsWithCI, chEqCI, iframeFor, injectCSS, iframeOverrideCSS, replaceFirst,
      findSub, escSrcdoc, escSrcdocChar, iframeToken, tokenOf, fenceScan, fenceAt,
      isWordChar, escapeHtml, escChar, trimL, fencedDoc, backtick]
  · simp +decide [convertHtmlDocsToIframes, docScan, docAt, docAlt2, findSubCI,
      startsWithCI, chEqCI, iframeFor, injectCSS, iframeOverrideCSS, replaceFirst,
      findSub, escSrcdoc, escSrcdocChar, iframeToken, tokenOf, fenceScan, fenceAt,
      isWordChar, escapeHtml, escChar, trimL, fencedDoc, backtick,
      show (toString (0 : Nat)) = "0" from rfl]
  · simp +decide [renderMessage, substUser, substChar, replaceAllCI,
      unwrapPreviousInfoBlocks, stripPrevInfoHeaders, prevInfoHeaderAt, prevInfoRun,
      countDetailsOpen, countDetailsClose, detailsCloseAt, detailsCloseCsAt,
      noWordCharAt, removeExcessCloses, removeFirstDetailsClose,
      removeCursorMarkers, cursorLineScan, cursorLineMatchAt, lastNlIdx,
      removeCursorTags, cursorTagAt, collapseNewlines,
      convertHtmlDocsToIframes, docScan, docAt, docAlt2, findSubCI, startsWithCI,
      chEqCI, iframeFor, injectCSS, iframeOverrideCSS, replaceFirst, findSub,
      escSrcdoc, escSrcdocChar, iframeToken, tokenOf,
      processChoices, processChoicesScan, choicesAt,
      renderMarkdown, fenceScan, fenceAt, inlineCodeScan, inlineCodeAt, backtick,
      protectScan, tagBlockAt, isWordChar,
      mdLines, mdStep, countBlockOpens, countBlockCloses, blockOpenHere,
      blockCloseHere, blockTags, headingAt, isHrLine, ulItemAt, olItemAt,
      ulStart2, olStart2, isTokenLine, tokenKindLine, startsOpenTagLetter,
      startsCloseTagLetter, processInlineMarkdown, replaceDelim, linkScan,
      linkT1, linkR2, linkT2, closeListTag, paragraphHtml, liHtml, headingHtml,
      blockquoteContent, trimL, escapeHtml, escChar, restoreTokens,
      restoreIframePlaceholders, restoreScan, restoreFullAt, restoreLeadTry,
      restoreTrailerLen, brAt, pOpenAt, iframeCoreAt, digitsVal,
      styleDialogue, styleGo, wrapPairs, renderExtraImages,
      List.intercalate, List.splitOn, List.splitOnP, List.splitOnP.go,
      fencedDoc, c2Expected,
      show (toString (0 : Nat)) = "0" from rfl]
    rfl

/-- C3 fails on the code (code bug): the regex-hook call in `renderMessage`
(renderer.js lines 498-505) has no try/catch, so an exception from the
injected `regexProcessor` while rendering one message propagates out of
`renderMessage` and aborts `renderChapter` — the remaining messages of the
chapter are never rendered, although the spec requires the exception to be
caught and logged with fallback to the unmodified text.  On the concrete
two-message chapter: the throwing hook aborts the whole chapter render
with the hook's exception, while the same chapter with a benign hook
renders both messages. -/
theorem c3_hook_throw_aborts_chapter :
    renderChapter c3Chapter c3Options (fun _ => "") = .error "regex boom" ∧
    renderChapter c3Chapter c3OptionsBenign (fun _ => "") = .ok c3Expected.data := by
  constructor
  · simp +decide [renderChapter, renderMessagesLoop, renderMessage, c3Chapter,
      c3Options, throwingHook, substUser, substChar, replaceAllCI, startsWithCI,
      chEqCI, bind, Except.bind]
  · simp +decide [renderChapter, renderMessagesLoop, renderMessage, c3Chapter,
      c3OptionsBenign, messageWrapper, substUser, substChar, replaceAllCI,
      unwrapPreviousInfoBlocks, stripPrevInfoHeaders, prevInfoHeaderAt, prevInfoRun,
      countDetailsOpen, countDetailsClose, detailsCloseAt, detailsCloseCsAt,
      noWordCharAt, removeExcessCloses, removeFirstDetailsClose,
      removeCursorMarkers, cursorLineScan, cursorLineMatchAt, lastNlIdx,
      removeCursorTags, cursorTagAt, collapseNewlines,
      convertHtmlDocsToIframes, docScan, docAt, docAlt2, findSubCI, startsWithCI,
      chEqCI, iframeFor, injectCSS, iframeOverrideCSS, replaceFirst, findSub,
      escSrcdoc, escSrcdocChar, iframeToken, tokenOf,
      processChoices, processChoicesScan, choicesAt,
      renderMarkdown, fenceScan, fenceAt, inlineCodeScan, inlineCodeAt, backtick,
      protectScan, tagBlockAt, isWordChar,
      mdLines, mdStep, countBlockOpens, countBlockCloses, blockOpenHere,
      blockCloseHere, blockTags, headingAt, isHrLine, ulItemAt, olItemAt,
      ulStart2, olStart2, isTokenLine, tokenKindLine, startsOpenTagLetter,
      startsCloseTagLetter, processInlineMarkdown, replaceDelim, linkScan,
      linkT1, linkR2, linkT2, closeListTag, paragraphHtml, liHtml, headingHtml,
      blockquoteContent, trimL, escapeHtml, escChar, restoreTokens,
      restoreIframePlaceholders, restoreScan, restoreFullAt, restoreLeadTry,
      restoreTrailerLen, brAt, pOpenAt, iframeCoreAt, digitsVal,
      styleDialogue, styleGo, wrapPairs, renderExtraImages,
      List.intercalate, List.splitOn, List.splitOnP, List.splitOnP.go,
      c3Expected,
      show (toString (0 : Nat)) = "0" from rfl,
      show (toString (3 : Nat)) = "3" from rfl,
      show (toString (4 : Nat)) = "4" from rfl]
    rfl

/-- C9: disabled dialogue styling is the identity on every HTML string
(renderer.js line 419: `if (!enabled || !html) return html`), and therefore
a full `renderMessage` with `dialogueEnabled = false` byte-equals the
markdown-only pipeline with the dialogue stage omitted. -/
theorem c9_dialogue_disabled_identity :
    (∀ html : List Char, styleDialogue html false = html) ∧
    (∀ (msg : CMsg) (opts : RenderOptions), opts.dialogueEnabled = false →
      renderMessage msg opts = renderMessageNoDialogue msg opts) := by
  constructor
  · intro html
    simp [styleDialogue]
  · intro msg opts h
    unfold renderMessage renderMessageNoDialogue
    have hsd : ∀ t : List Char, styleDialogue t opts.dialogueEnabled = t := by
      intro t
      rw [h]
      simp [styleDialogue]
    cases hrp : opts.regexProcessor with
    | none => simp [hsd]
    | some f =>
      simp only
      cases hres : f (substChar (substUser msg.mes.data opts.userName.data)
          opts.characterName.data)
          ⟨msg.is_user, opts.characterName, opts.characterKey, opts.userName⟩ with
      | error e => simp [hres, bind, Except.bind]
      | ok t => simp [hres, hsd, bind, Except.bind]

/-- Witness for C9 at a concrete message and options. -/
theorem c9_dialogue_disabled_identity_witness :
    renderMessage ⟨"A", false, false, "say \"hello\" now", some 0, 0, none⟩
        ⟨"U", "C", "K", false, true, none⟩
      = renderMessageNoDialogue ⟨"A", false, false, "say \"hello\" now", some 0, 0, none⟩
        ⟨"U", "C", "K", false, true, none⟩ :=
  c9_dialogue_disabled_identity.2
    ⟨"A", false, false, "say \"hello\" now", some 0, 0, none⟩
    ⟨"U", "C", "K", false, true, none⟩ rfl

/-- The message-level `forEach` of `performSearch` equals the
message-level walk of the amended claim, for every starting index. -/
theorem specSearchMsgs_eq (query : List Char) (ci : Nat) (title : String) :
    ∀ (mi : Nat) (msgs : List CMsg),
      (List.enumFrom mi msgs).filterMap
          (fun pm => searchHit query ci pm.1 title pm.2.mes.data)
        = specSearchMsgs query ci title mi msgs
  | _, [] => by simp [List.enumFrom, specSearchMsgs]
  | mi, m :: ms => by
    cases h : searchHit query ci mi title m.mes.data with
    | none =>
      simp [List.enumFrom, List.filterMap_cons, specSearchMsgs, h,
        specSearchMsgs_eq query ci title (mi + 1) ms]
    | some e =>
      simp [List.enumFrom, List.filterMap_cons, specSearchMsgs, h,
        specSearchMsgs_eq query ci title (mi + 1) ms]

/-- The chapter-level `forEach` of `performSearch` equals the
chapter-level walk of the amended claim, for every starting index. -/
theorem specSearchGo_eq (query : List Char) :
    ∀ (ci : Nat) (chs : List Chapter),
      ((List.enumFrom ci chs).map (fun pc =>
          (List.enumFrom 0 pc.2.messages).filterMap (fun pm =>
            searchHit query pc.1 pm.1 pc.2.title pm.2.mes.data))).flatten
        = specSearchGo query ci chs
  | _, [] => by simp [List.enumFrom, specSearchGo]
  | ci, ch :: rest => by
    simp only [List.enumFrom, List.map_cons, List.flatten_cons]
    rw [specSearchGo, specSearchGo_eq query (ci + 1) rest, specSearchMsgs_eq]

/-- `searchResults` (both nested loops) equals the walk of the amended
claim. -/
theorem searchResults_eq (chapters : List Chapter) (query : List Char) :
    searchResults chapters query = specSearchGo query 0 chapters := by
  simp only [searchResults, List.enum]
  exact specSearchGo_eq query 0 chapters

/-- Claim C8 (amended): for every query of length at least two, the
displayed entries are exactly the first 50 hits of the in-order walk over
the chapters' messages (one hit per matching message, around the first
occurrence, with the raw unescaped context window and case-insensitive
highlight), at most 50 entries are displayed, and the reported count is
the FULL number of hits. -/
theorem c8_search_results (chapters : List Chapter) (query : String)
    (h : 2 ≤ query.length) :
    (performSearch chapters query).1
        = (specSearchGo query.data 0 chapters).take 50 ∧
    (performSearch chapters query).2
        = (specSearchGo query.data 0 chapters).length ∧
    (performSearch chapters query).1.length ≤ 50 := by
  have hq : ¬ query.length < 2 := by omega
  refine ⟨?_, ?_, ?_⟩
  · simp [performSearch, hq, searchResults_eq]
  · simp [performSearch, hq, searchResults_eq]
  · simp only [performSearch, hq, if_false]
    exact List.length_take_le 50 _

/-- Closed instance of the C8 theorem: the fixture chapter searched for
`ab`. -/
theorem c8_search_results_witness :
    2 ≤ ("ab" : String).length ∧
    ((performSearch [c8Chapter] "ab").1
        = (specSearchGo "ab".data 0 [c8Chapter]).take 50 ∧
     (performSearch [c8Chapter] "ab").2
        = (specSearchGo "ab".data 0 [c8Chapter]).length ∧
     (performSearch [c8Chapter] "ab").1.length ≤ 50) :=
  ⟨by decide, c8_search_results [c8Chapter] "ab" (by decide)⟩

/-- Claim C8, refuting the HTML-escaping part: searching the fixture
chapter (message text `<b>ab`) for `ab` displays a context that still
contains the raw markup `<b>` and nowhere its escaped form `&lt;` — the
window is taken from the raw text and inserted into the result item
without HTML escaping. -/
theorem c8_context_not_escaped :
    (performSearch [c8Chapter] "ab").1
        = [⟨0, 0, "<b><mark class=\"cn-search-highlight\">ab</mark>".data, "T"⟩] ∧
    hasSub "<b>".data
        "<b><mark class=\"cn-search-highlight\">ab</mark>".data = true ∧
    hasSub "&lt;".data
        "<b><mark class=\"cn-search-highlight\">ab</mark>".data = false := by
  refine ⟨?_, by decide, by decide⟩
  simp +decide [performSearch, searchResults, searchHit, highlightAll, lowerL,
    findSub, c8Chapter, List.enum, List.enumFrom, startsWithCI, chEqCI,
    show ("<b>ab" : String).length = 5 from rfl,
    show ("ab" : String).length = 2 from rfl]

end ChatNovel
